import Mathlib

/-!
# File utilities: single-file copy, tree copy and file creation

A shallow embedding of `copy.go`, `copytree.go` and `write.go` (all of their
functions but `CopyReaderInfo`, which no statement below needs).

The Go functions act on the operating system's filesystem.  Here the
filesystem is an explicit value (`FS`): a table of path names, a table of
inodes, the process umask, a clock and a table of injected failures (any system
call may fail for reasons the tables do not describe: a full disk, a link
across devices, a permission).  Every system call threads a `World`, the
filesystem together with the list of system calls issued so far, so that
"performs no chmod" is a statement about that list.

The filesystem has directories, regular files, special files and hard links,
and no symbolic links.  The calling process is taken to be privileged: no
permission check fails on its own (an injected failure stands for a refusal),
and a write leaves the setuid and setgid bits of a file alone.

Go's `error` results are `Option Err` (`none` is `nil`); results with a value
are `Except Err _`.
-/

set_option linter.dupNamespace false

namespace FileUtils

/-! ## Strings and lexical paths (`strings`, `path/filepath`) -/

/-- Split a path at every separator; `a//b` gives `a`, the empty name and `b`. -/
def splitSep : List Char → List (List Char)
  | [] => [[]]
  | c :: cs =>
    match splitSep cs with
    | [] => [[]]
    | h :: t => if c = '/' then [] :: h :: t else (c :: h) :: t

/-- One step of `filepath.Clean` over the names of a path, the names kept so
far in reverse: empty names and `.` are dropped, `..` removes the name before
it, is dropped at the root and is kept at the start of a relative path. -/
def cleanStep (rooted : Bool) (out : List (List Char)) (c : List Char) : List (List Char) :=
  if c = [] ∨ c = ['.'] then out
  else if c = ['.', '.'] then
    match out with
    | [] => if rooted then [] else [c]
    | top :: rest => if top = ['.', '.'] then c :: out else rest
  else c :: out

/-- Names joined by single separators. -/
def joinSep : List (List Char) → List Char
  | [] => []
  | [c] => c
  | c :: cs => c ++ '/' :: joinSep cs

/-- The names of the cleaned path, first to last. -/
def cleanNames (p : String) : List (List Char) :=
  ((splitSep p.data).foldl (cleanStep (p.data.head? = some '/')) []).reverse

/-- The path made of the given names: below the root when `rooted`, else
below the working directory, which is `.` when there is no name. -/
def pathOf (rooted : Bool) (names : List (List Char)) : String :=
  if rooted then String.mk ('/' :: joinSep names)
  else if joinSep names = [] then "." else String.mk (joinSep names)

namespace filepath

/-- Go's `filepath.Clean` (Unix): the shortest path equivalent to `p` by purely
lexical processing; the empty path becomes `.`. -/
def Clean (p : String) : String :=
  pathOf (p.data.head? = some '/') (cleanNames p)

/-- Go's `filepath.Join` for two elements: empty elements are ignored, the
result is cleaned, and joining only empty elements gives the empty string. -/
def Join (a b : String) : String :=
  if a ≠ "" then Clean (a ++ "/" ++ b)
  else if b ≠ "" then Clean b
  else ""

/-- Go's `filepath.Dir`: everything up to the last separator, cleaned. -/
def Dir (p : String) : String :=
  Clean (String.mk ((p.data.reverse.dropWhile (fun c => c != '/')).reverse))

/-- Go's `filepath.Base`: the last name of the path. -/
def Base (p : String) : String :=
  if p = "" then "."
  else
    let name := ((p.data.reverse.dropWhile (fun c => c == '/')).takeWhile
      (fun c => c != '/')).reverse
    if name = [] then "/" else String.mk name

end filepath

namespace strings

/-- Go's `strings.TrimSuffix`. -/
def TrimSuffix (s suffix : String) : String :=
  if suffix.data.isSuffixOf s.data then
    String.mk (s.data.take (s.data.length - suffix.data.length))
  else s

/-- Go's `strings.TrimPrefix`. -/
def TrimPrefix (s pre : String) : String :=
  if pre.data.isPrefixOf s.data then String.mk (s.data.drop pre.data.length)
  else s

end strings

/-- The value of `string(os.PathSeparator)`. -/
def PathSeparator : String := "/"

/-! ## File modes (`os.FileMode`) -/

/-- The bit `os.ModeDir`. -/
def ModeDir : Nat := 2 ^ 31

/-- The mask `os.ModeType`: directory, symlink, named pipe, socket, device,
character device and irregular. -/
def ModeType : Nat := 2 ^ 31 + 2 ^ 27 + 2 ^ 26 + 2 ^ 25 + 2 ^ 24 + 2 ^ 21 + 2 ^ 19

/-- The mask `os.ModePerm`, `0777`. -/
def ModePerm : Nat := 0o777

/-- The bit `os.ModeSetuid`. -/
def ModeSetuid : Nat := 2 ^ 23

/-- The bit `os.ModeSetgid`. -/
def ModeSetgid : Nat := 2 ^ 22

/-- The bit `os.ModeSticky`. -/
def ModeSticky : Nat := 2 ^ 20

/-- Go's `syscallMode`: the bits of a `FileMode` that `open`, `mkdir` and
`chmod` receive, the nine permission bits with setuid, setgid and sticky (kept
here at their `FileMode` positions). -/
def syscallMode (m : Nat) : Nat := m &&& (ModePerm ||| ModeSetuid ||| ModeSetgid ||| ModeSticky)

/-- Go's `FileMode.IsRegular`. -/
def FileMode.IsRegular (m : Nat) : Bool := m &&& ModeType == 0

/-- Go's `FileMode.IsDir`. -/
def FileMode.IsDir (m : Nat) : Bool := m &&& ModeDir != 0

/-- Go's `FileMode.Perm`. -/
def FileMode.Perm (m : Nat) : Nat := m &&& ModePerm

/-- Go's `os.FileInfo` as `os.Stat` fills it: base name, mode, modification
time and the identity `os.SameFile` compares. -/
structure FileInfo where
  name : String
  mode : Nat
  modTime : Nat
  ino : Nat
  deriving DecidableEq, Repr

/-! ## Errors -/

/-- The system error numbers the filesystem below can produce. -/
inductive Errno
  | ENOENT | EEXIST | ENOTDIR | EISDIR | EPERM | EXDEV | ENOSPC | EBADF
  deriving DecidableEq, Repr

deriving instance DecidableEq for Except

/-- Go error values: a system call's `*os.PathError`, the two `fmt.Errorf`
errors of `copy.go`, an error of a caller's reader, an error wrapped with a
message (`errors.Wrap`), and the sentinel `filepath.SkipDir`. -/
inductive Err
  | sys (op : String) (path : String) (errno : Errno)
  | nonRegularSource (name : String) (mode : Nat)
  | nonRegularDestination (name : String) (mode : Nat)
  | reader (msg : String)
  | wrapped (cause : Err) (msg : String)
  | skipDir
  deriving DecidableEq, Repr

namespace errors

/-- The function `errors.Wrap` of `github.com/pkg/errors`: `nil` stays `nil`. -/
def Wrap (e : Option Err) (msg : String) : Option Err :=
  match e with
  | none => none
  | some c => some (Err.wrapped c msg)

end errors

/-! ## The filesystem -/

/-- A system call with its arguments. -/
inductive Call
  | stat (p : String)
  | lstat (p : String)
  | readdir (p : String)
  | link (old new : String)
  | openRead (p : String)
  | openWrite (p : String) (perm : Nat)
  | read (h : Nat)
  | write (h : Nat) (data : List Nat)
  | sync (h : Nat)
  | close (h : Nat)
  | chtimes (p : String) (atime mtime : Nat)
  | chmod (p : String) (mode : Nat)
  | mkdirAll (p : String) (perm : Nat)
  deriving DecidableEq, Repr

/-- An inode: mode (type, setuid, setgid, sticky and permission bits, as
`os.Stat` reports it), times and content. -/
structure Inode where
  mode : Nat
  modTime : Nat
  atime : Nat
  data : List Nat
  deriving DecidableEq, Repr

/-- The filesystem and its environment: cleaned path names with their inode
number (two names with one number are hard links), the inodes by number, the
process umask, the clock `time.Now` reads, and the injected failures. -/
structure FS where
  names : List (String × Nat)
  inodes : List Inode
  umask : Nat
  clock : Nat
  faults : Call → Option Err

/-- The filesystem and the system calls issued so far, oldest first. -/
structure World where
  fs : FS
  log : List Call

/-- Record a system call. -/
def World.emit (w : World) (c : Call) : World := { w with log := w.log ++ [c] }

/-- The entry stored under a cleaned path name. -/
def FS.entry (fs : FS) (key : String) : Option (Nat × Inode) :=
  match fs.names.lookup key with
  | none => none
  | some i =>
    match fs.inodes[i]? with
    | none => none
    | some nd => some (i, nd)

/-- One name of a path being looked up: the path reached so far must be a
directory (it is added to the list of directories to check), then the name is
taken as `filepath.Clean` takes it.  The empty name after a trailing separator
and the name `.` are names too: `f/` and `f/.` need `f` to be a directory. -/
def walkStep (rooted : Bool) (st : List (List Char) × List String) (c : List Char) :
    List (List Char) × List String :=
  (cleanStep rooted st.1 c, st.2 ++ [pathOf rooted st.1.reverse])

/-- The directories a lookup of the path passes through, in order: each must
exist and be a directory. -/
def passedDirs (p : String) : List String :=
  ((splitSep p.data).foldl (walkStep (p.data.head? = some '/')) ([], [])).2

/-- The first failure among the directories to pass through: `ENOENT` for a
missing one, `ENOTDIR` for an entry that is not a directory. -/
def FS.checkDirs (fs : FS) : List String → Option Errno
  | [] => none
  | d :: ds =>
    match fs.entry d with
    | none => some Errno.ENOENT
    | some (_, nd) => if FileMode.IsDir nd.mode then fs.checkDirs ds else some Errno.ENOTDIR

/-- The answer of a path lookup: the entry found; no entry, in an existing
directory; or the failure on the way. -/
inductive Lookup
  | found (i : Nat) (nd : Inode)
  | absent
  | fails (e : Errno)
  deriving DecidableEq, Repr

/-- The lookup of a path, name by name.  The empty path fails with `ENOENT`; a
name below something that is not a directory fails with `ENOTDIR`. -/
def FS.resolve (fs : FS) (p : String) : Lookup :=
  if p = "" then Lookup.fails Errno.ENOENT
  else
    match fs.checkDirs (passedDirs p) with
    | some e => Lookup.fails e
    | none =>
      match fs.entry (filepath.Clean p) with
      | some (i, nd) => Lookup.found i nd
      | none => Lookup.absent

/-- Replace the inode with number `i`. -/
def FS.setInode (fs : FS) (i : Nat) (nd : Inode) : FS :=
  { fs with inodes := fs.inodes.set i nd }

/-- Add a new inode under a new name; its number is the next free one. -/
def FS.addNode (fs : FS) (p : String) (nd : Inode) : FS :=
  { fs with names := (filepath.Clean p, fs.inodes.length) :: fs.names,
            inodes := fs.inodes ++ [nd] }

/-- The mode of a file created by `open` with the mode `perm`: the permission
bits less the umask's, with the setuid, setgid and sticky bits asked for. -/
def FS.created (fs : FS) (perm : Nat) : Nat :=
  (FileMode.Perm perm &&& (ModePerm ^^^ FileMode.Perm fs.umask)) |||
    (perm &&& (ModeSetuid ||| ModeSetgid ||| ModeSticky))

/-- The mode of a directory created by `mkdir` with the mode `perm` inside a
directory of mode `parent`: the permission bits less the umask's, the sticky
bit if asked for, and the parent's setgid bit. -/
def FS.createdDir (fs : FS) (perm parent : Nat) : Nat :=
  ModeDir ||| (FileMode.Perm perm &&& (ModePerm ^^^ FileMode.Perm fs.umask)) |||
    (perm &&& ModeSticky) ||| (parent &&& ModeSetgid)

/-- Names in ascending byte order, as `sort.Strings` orders them. -/
def nameLt : List Char → List Char → Bool
  | [], [] => false
  | [], _ :: _ => true
  | _ :: _, [] => false
  | a :: as, b :: bs =>
    if a.toNat < b.toNat then true
    else if b.toNat < a.toNat then false
    else nameLt as bs

/-- Insert a name into a sorted list of names; a name already there is not
repeated. -/
def insertName (x : String) : List String → List String
  | [] => [x]
  | y :: ys =>
    if x = y then y :: ys
    else if nameLt x.data y.data then x :: y :: ys
    else y :: insertName x ys

/-- The names of the entries directly inside a directory, sorted. -/
def FS.children (fs : FS) (dir : String) : List String :=
  ((fs.names.filter (fun e =>
      filepath.Dir e.1 == filepath.Clean dir && e.1 != filepath.Clean dir)).map
    (fun e => filepath.Base e.1)).foldr insertName []

/-- The path and the paths above it as `os.MkdirAll` takes them, outermost
first, name by name as written (`..` included, empty names and `.` left out):
`a/b/c` gives `a`, `a/b`, `a/b/c`. -/
def pathChain (rooted : Bool) (above : List (List Char)) : List (List Char) → List String
  | [] => []
  | n :: ns =>
    if n = [] ∨ n = ['.'] then pathChain rooted above ns
    else
      String.mk ((if rooted then ['/'] else []) ++ joinSep (above ++ [n])) ::
        pathChain rooted (above ++ [n]) ns

/-- The chain of directories `os.MkdirAll` walks for a path. -/
def ancestors (p : String) : List String :=
  pathChain (p.data.head? = some '/') [] (splitSep p.data)

/-! ## System calls (`os`, `io`) -/

namespace os

/-- Flag `os.O_WRONLY`. -/
def O_WRONLY : Nat := 0o1
/-- Flag `os.O_RDWR`. -/
def O_RDWR : Nat := 0o2
/-- Flag `os.O_CREATE`. -/
def O_CREATE : Nat := 0o100
/-- Flag `os.O_TRUNC`. -/
def O_TRUNC : Nat := 0o1000

/-- Go's `os.IsNotExist`: the error of a system call that found no entry. -/
def IsNotExist (e : Err) : Bool :=
  match e with
  | .sys _ _ .ENOENT => true
  | _ => false

/-- Go's `os.SameFile`: the two descriptors name one inode. -/
def SameFile (a b : FileInfo) : Bool := a.ino == b.ino

/-- What `stat` answers for a path in a filesystem. -/
def statAt (fs : FS) (c : Call) (op p : String) : Except Err FileInfo :=
  match fs.faults c with
  | some e => .error e
  | none =>
    match fs.resolve p with
    | .found i nd =>
      .ok { name := filepath.Base p, mode := nd.mode, modTime := nd.modTime, ino := i }
    | .absent => .error (.sys op p .ENOENT)
    | .fails e => .error (.sys op p e)

/-- Go's `os.Stat`.  The filesystem has no symbolic links, so `Stat` and
`Lstat` answer alike. -/
def Stat (p : String) (w : World) : World × Except Err FileInfo :=
  (w.emit (.stat p), statAt w.fs (.stat p) "stat" p)

/-- Go's `os.Lstat`. -/
def Lstat (p : String) (w : World) : World × Except Err FileInfo :=
  (w.emit (.lstat p), statAt w.fs (.lstat p) "lstat" p)

/-- Go's `os.Link`: a second name for the inode of `oldname`.  Fails when the
old name cannot be looked up or is a directory, and when the new name exists
or cannot be looked up. -/
def Link (oldname newname : String) (w : World) : World × Option Err :=
  let c := Call.link oldname newname
  let w1 := w.emit c
  match w.fs.faults c with
  | some e => (w1, some e)
  | none =>
    match w.fs.resolve oldname with
    | .absent => (w1, some (.sys "link" oldname .ENOENT))
    | .fails e => (w1, some (.sys "link" oldname e))
    | .found i nd =>
      if FileMode.IsDir nd.mode then (w1, some (.sys "link" oldname .EPERM))
      else
        match w.fs.resolve newname with
        | .found _ _ => (w1, some (.sys "link" newname .EEXIST))
        | .fails e => (w1, some (.sys "link" newname e))
        | .absent =>
          ({ w1 with fs := { w.fs with names := (filepath.Clean newname, i) :: w.fs.names } },
            none)

/-- Go's `os.OpenFile` for writing; the result is the handle of the open file,
the number of its inode.  An existing file is truncated when `O_TRUNC` is set
and keeps its mode; a missing one is created when `O_CREATE` is set, with the
mode `FS.created` gives for `perm`. -/
def OpenFile (name : String) (flag perm : Nat) (w : World) : World × Except Err Nat :=
  let c := Call.openWrite name perm
  let w1 := w.emit c
  match w.fs.faults c with
  | some e => (w1, .error e)
  | none =>
    match w.fs.resolve name with
    | .fails e => (w1, .error (.sys "open" name e))
    | .found i nd =>
      if FileMode.IsDir nd.mode then (w1, .error (.sys "open" name .EISDIR))
      else if flag &&& O_TRUNC != 0 then
        let nd1 : Inode := { nd with data := [], modTime := w.fs.clock }
        ({ w1 with fs := w.fs.setInode i nd1 }, .ok i)
      else (w1, .ok i)
    | .absent =>
      if flag &&& O_CREATE == 0 then (w1, .error (.sys "open" name .ENOENT))
      else
        let nd : Inode :=
          { mode := w.fs.created perm, modTime := w.fs.clock, atime := w.fs.clock, data := [] }
        ({ w1 with fs := w.fs.addNode name nd }, .ok w.fs.inodes.length)

/-- Go's `os.Create`: `OpenFile(name, O_RDWR|O_CREATE|O_TRUNC, 0666)`. -/
def Create (name : String) (w : World) : World × Except Err Nat :=
  OpenFile name (O_RDWR ||| O_CREATE ||| O_TRUNC) 0o666 w

/-- Go's `os.Open`: the handle of an existing entry, for reading. -/
def Open (name : String) (w : World) : World × Except Err Nat :=
  let c := Call.openRead name
  let w1 := w.emit c
  match w.fs.faults c with
  | some e => (w1, .error e)
  | none =>
    match w.fs.resolve name with
    | .found i _ => (w1, .ok i)
    | .absent => (w1, .error (.sys "open" name .ENOENT))
    | .fails e => (w1, .error (.sys "open" name e))

/-- Reading an open file to its end: the bytes and the read error, if any. -/
def File.Read (h : Nat) (w : World) : World × List Nat × Option Err :=
  let c := Call.read h
  let w1 := w.emit c
  match w.fs.faults c with
  | some e => (w1, [], some e)
  | none =>
    match w.fs.inodes[h]? with
    | none => (w1, [], some (.sys "read" "" .EBADF))
    | some nd =>
      if FileMode.IsDir nd.mode then (w1, [], some (.sys "read" "" .EISDIR))
      else (w1, nd.data, none)

/-- Go's `(*os.File).Write`: the bytes are appended to the file. -/
def File.Write (h : Nat) (data : List Nat) (w : World) : World × Option Err :=
  let c := Call.write h data
  let w1 := w.emit c
  match w.fs.faults c with
  | some e => (w1, some e)
  | none =>
    match w.fs.inodes[h]? with
    | none => (w1, some (.sys "write" "" .EBADF))
    | some nd =>
      let nd1 : Inode := { nd with data := nd.data ++ data, modTime := w.fs.clock }
      ({ w1 with fs := w.fs.setInode h nd1 }, none)

/-- Go's `(*os.File).Sync`: fails only by an injected failure. -/
def File.Sync (h : Nat) (w : World) : World × Option Err :=
  (w.emit (.sync h), w.fs.faults (.sync h))

/-- Go's `(*os.File).Close`: fails only by an injected failure. -/
def File.Close (h : Nat) (w : World) : World × Option Err :=
  (w.emit (.close h), w.fs.faults (.close h))

/-- Go's `os.Chtimes`. -/
def Chtimes (name : String) (atime mtime : Nat) (w : World) : World × Option Err :=
  let c := Call.chtimes name atime mtime
  let w1 := w.emit c
  match w.fs.faults c with
  | some e => (w1, some e)
  | none =>
    match w.fs.resolve name with
    | .absent => (w1, some (.sys "chtimes" name .ENOENT))
    | .fails e => (w1, some (.sys "chtimes" name e))
    | .found i nd =>
      let nd1 : Inode := { nd with atime := atime, modTime := mtime }
      ({ w1 with fs := w.fs.setInode i nd1 }, none)

/-- Go's `os.Chmod`: the permission, setuid, setgid and sticky bits become
those of `mode` (`syscallMode`), the type bits are kept. -/
def Chmod (name : String) (mode : Nat) (w : World) : World × Option Err :=
  let c := Call.chmod name mode
  let w1 := w.emit c
  match w.fs.faults c with
  | some e => (w1, some e)
  | none =>
    match w.fs.resolve name with
    | .absent => (w1, some (.sys "chmod" name .ENOENT))
    | .fails e => (w1, some (.sys "chmod" name e))
    | .found i nd =>
      let nd1 : Inode := { nd with mode := (nd.mode &&& ModeType) ||| syscallMode mode }
      ({ w1 with fs := w.fs.setInode i nd1 }, none)

/-- The mode of the directory that holds the path, `0` when there is none. -/
def parentMode (fs : FS) (p : String) : Nat :=
  match fs.entry (filepath.Dir (filepath.Clean p)) with
  | some (_, nd) => nd.mode
  | none => 0

/-- One directory of `os.MkdirAll`'s chain: an existing directory is kept, an
existing entry of another type is an error, a missing one is created inside
its (existing) parent; the name `..` is never created. -/
def mkdirStep (perm : Nat) (acc : FS × Option Err) (p : String) : FS × Option Err :=
  match acc with
  | (fs, some e) => (fs, some e)
  | (fs, none) =>
    match fs.resolve p with
    | .found _ nd =>
      if FileMode.IsDir nd.mode then (fs, none) else (fs, some (.sys "mkdir" p .ENOTDIR))
    | .fails e => (fs, some (.sys "mkdir" p e))
    | .absent =>
      if filepath.Base p = ".." then (fs, some (.sys "mkdir" p .ENOENT))
      else
        let nd : Inode :=
          { mode := fs.createdDir perm (parentMode fs p), modTime := fs.clock,
            atime := fs.clock, data := [] }
        (fs.addNode p nd, none)

/-- Go's `os.MkdirAll`: creates the directory and the missing directories
above it; nothing happens when the directory exists. -/
def MkdirAll (path : String) (perm : Nat) (w : World) : World × Option Err :=
  let c := Call.mkdirAll path perm
  let w1 := w.emit c
  match w.fs.faults c with
  | some e => (w1, some e)
  | none =>
    if path = "" then (w1, some (.sys "mkdir" path .ENOENT))
    else
      match (ancestors path).foldl (mkdirStep perm) (w.fs, none) with
      | (fs, e) => ({ w1 with fs := fs }, e)

end os

/-- An `io.Reader`: an open file, or any other reader, given by the bytes it
produces and the error that ends them (`none` for a plain end of input). -/
inductive Reader
  | file (h : Nat)
  | mem (data : List Nat) (err : Option Err)

namespace bytes

/-- Go's `bytes.NewBuffer`: a reader over a byte slice, which cannot fail. -/
def NewBuffer (data : List Nat) : Reader := Reader.mem data none

end bytes

namespace io

/-- Everything a reader produces up to its end, and the error that ended it. -/
def readAll (src : Reader) (w : World) : World × List Nat × Option Err :=
  match src with
  | .file h => os.File.Read h w
  | .mem data err => (w, data, err)

/-- Go's `io.Copy` into an open file: the bytes read are written; a write error
stops the copy, and otherwise the reader's error is the result.  Nothing is
written when the reader produces no byte. -/
def Copy (out : Nat) (src : Reader) (w : World) : World × Option Err :=
  match readAll src w with
  | (w1, data, rerr) =>
    if data = [] then (w1, rerr)
    else
      match os.File.Write out data w1 with
      | (w2, some e) => (w2, some e)
      | (w2, none) => (w2, rerr)

end io

namespace filepath

/-- The callback of `filepath.Walk`: the visited path, its descriptor (absent
when the entry could not be examined) and the error met on the way to it. -/
abbrev WalkFunc := String → Option FileInfo → Option Err → World → World × Option Err

/-- Go's `readDirNames`: the sorted names inside a directory. -/
def readDirNames (dirname : String) (w : World) : World × List String × Option Err :=
  let c := Call.readdir dirname
  let w1 := w.emit c
  match w.fs.faults c with
  | some e => (w1, [], some e)
  | none =>
    match w.fs.resolve dirname with
    | .absent => (w1, [], some (.sys "open" dirname .ENOENT))
    | .fails e => (w1, [], some (.sys "open" dirname e))
    | .found _ nd =>
      if FileMode.IsDir nd.mode then (w1, w.fs.children dirname, none)
      else (w1, [], some (.sys "readdirent" dirname .ENOTDIR))

/-- The loop of Go's `walk` over the names of a directory; `descend` is `walk`
itself on an entry.  `none` means that a call of `descend` did not return. -/
def walkNames (descend : String → FileInfo → World → Option (World × Option Err))
    (walkFn : WalkFunc) (path : String) :
    List String → World → Option (World × Option Err)
  | [], w => some (w, none)
  | name :: rest, w =>
    let filename := Join path name
    match os.Lstat filename w with
    | (w1, .error e) =>
      match walkFn filename none (some e) w1 with
      | (w2, some e2) =>
        if e2 ≠ Err.skipDir then some (w2, some e2)
        else walkNames descend walkFn path rest w2
      | (w2, none) => walkNames descend walkFn path rest w2
    | (w1, .ok fileInfo) =>
      match descend filename fileInfo w1 with
      | none => none
      | some (w2, some e) =>
        if !FileMode.IsDir fileInfo.mode || e ≠ Err.skipDir then some (w2, some e)
        else walkNames descend walkFn path rest w2
      | some (w2, none) => walkNames descend walkFn path rest w2

/-- Go's `walk`: the callback on the entry, then, for a directory the callback
did not refuse, the entries inside it.  The recursion follows the filesystem as
the callback changes it, so it is bounded by `fuel`, the number of directory
levels it may descend; `none` means the bound was reached. -/
def walk (walkFn : WalkFunc) : Nat → String → FileInfo → World → Option (World × Option Err)
  | 0, _, _, _ => none
  | fuel + 1, path, info, w =>
    if !FileMode.IsDir info.mode then some (walkFn path (some info) none w)
    else
      match readDirNames path w with
      | (w1, names, err) =>
        match walkFn path (some info) err w1 with
        | (w2, err1) =>
          if err.isSome || err1.isSome then some (w2, err1)
          else walkNames (walk walkFn fuel) walkFn path names w2

/-- The end of Go's `Walk`: `SkipDir` from the root is success. -/
def walkResult (r : World × Option Err) : World × Option Err :=
  if r.2 = some Err.skipDir then (r.1, none) else r

/-- Go's `filepath.Walk`. -/
def Walk (fuel : Nat) (root : String) (fn : WalkFunc) (w : World) :
    Option (World × Option Err) :=
  match os.Lstat root w with
  | (w1, .error e) => some (walkResult (fn root none (some e) w1))
  | (w1, .ok info) => (walk fn fuel root info w1).map walkResult

end filepath

/-! ## The helper package `path-helpers` -/

namespace path_helpers

/-- Modelled from the spec: `IsExistingDir` of the package `path-helpers`, whose
source is not part of the repository; by its name and its use ("ensures the
destination root directory exists"), whether the path names an existing
directory. -/
def IsExistingDir (pth : String) (w : World) : World × Bool :=
  match os.Stat pth w with
  | (w1, .ok fi) => (w1, FileMode.IsDir fi.mode)
  | (w1, .error _) => (w1, false)

/-- The search of `ResolveMode` along the candidate paths, nearest first. -/
def resolveModeFrom : List String → World → World × Except Err Nat
  | [], w => (w, .error (.sys "stat" "" .ENOENT))
  | p :: rest, w =>
    match os.Stat p w with
    | (w1, .ok fi) => (w1, .ok fi.mode)
    | (w1, .error e) =>
      if os.IsNotExist e then resolveModeFrom rest w1 else (w1, .error e)

/-- Modelled from the spec: `ResolveMode` of the package `path-helpers`, whose
source is not part of the repository; the spec has missing directories created
"inheriting the mode of the nearest existing ancestor": the mode of the path
itself when it exists, else of the nearest directory above it that does. -/
def ResolveMode (pth : String) (w : World) : World × Except Err Nat :=
  resolveModeFrom
    ((ancestors pth).reverse ++ [if pth.data.head? = some '/' then "/" else "."]) w

/-- Modelled from the spec: `MkdirAllIfNotExists` of the package `path-helpers`,
whose source is not part of the repository; by its name, the directory is
created, with the mode `ResolveMode` gives, unless it exists. -/
def MkdirAllIfNotExists (pth : String) (w : World) : World × Option Err :=
  match IsExistingDir pth w with
  | (w1, true) => (w1, none)
  | (w1, false) =>
    match ResolveMode pth w1 with
    | (w2, .error e) => (w2, some e)
    | (w2, .ok mode) => os.MkdirAll pth mode w2

end path_helpers

/-! ## copy.go -/

/-- The function `SetInfo`: the destination's modification time becomes the
descriptor's (its access time the present time), then its mode the
descriptor's. -/
def SetInfo (pth : String) (info : FileInfo) (w : World) : World × Option Err :=
  match os.Chtimes pth w.fs.clock info.modTime w with
  | (w1, some e) => (w1, some e)
  | (w1, none) => os.Chmod pth info.mode w1

/-- The function `CopyReader`: create or truncate `dst`, copy the reader into
it and sync; the deferred close runs on every path after the create, and its
error is the result when there was none before. -/
def CopyReader (rd : Reader) (dst : String) (w : World) : World × Option Err :=
  match os.Create dst w with
  | (w1, .error e) => (w1, some e)
  | (w1, .ok out) =>
    match (match io.Copy out rd w1 with
           | (w2, some e) => (w2, some e)
           | (w2, none) => os.File.Sync out w2) with
    | (w3, err) =>
      match os.File.Close out w3 with
      | (w4, cerr) => (w4, if err = none then cerr else err)

/-- The function `CopyFileContents`: open `src`, copy it into `dst` with
`CopyReader`; the deferred close of `src` discards its error. -/
def CopyFileContents (src dst : String) (w : World) : World × Option Err :=
  match os.Open src w with
  | (w1, .error e) => (w1, some e)
  | (w1, .ok h) =>
    match CopyReader (Reader.file h) dst w1 with
    | (w2, err) => ((os.File.Close h w2).1, err)

/-- The function `CopyBytes`. -/
def CopyBytes (data : List Nat) (dst : String) (w : World) : World × Option Err :=
  CopyReader (bytes.NewBuffer data) dst w

/-- Lines 39 to 45 of `CopyFile`: the hard link and, when it fails, the content
copy followed by `SetInfo` with the source's descriptor. -/
def CopyFile.linkOrCopy (src dst : String) (sfi : FileInfo) (w : World) :
    World × Option Err :=
  match os.Link src dst w with
  | (w1, none) => (w1, none)
  | (w1, some _) =>
    match CopyFileContents src dst w1 with
    | (w2, none) => SetInfo dst sfi w2
    | (w2, some e) => (w2, some e)

/-- The function `CopyFile`. -/
def CopyFile (src dst : String) (w : World) : World × Option Err :=
  match os.Stat src w with
  | (w1, .error e) => (w1, some e)
  | (w1, .ok sfi) =>
    if !FileMode.IsRegular sfi.mode then
      (w1, some (Err.nonRegularSource sfi.name sfi.mode))
    else
      match os.Stat dst w1 with
      | (w2, .error e) =>
        if !os.IsNotExist e then (w2, some e)
        else CopyFile.linkOrCopy src dst sfi w2
      | (w2, .ok dfi) =>
        if !FileMode.IsRegular dfi.mode then
          (w2, some (Err.nonRegularDestination dfi.name dfi.mode))
        else if os.SameFile sfi dfi then (w2, none)
        else CopyFile.linkOrCopy src dst sfi w2

/-! ## write.go -/

/-- The type `WriteMode`, a Go `int` used as a set of bit flags. -/
abbrev WriteMode := Int

/-- The flag `WO_SetPerm`, `1 << 0`. -/
def WO_SetPerm : WriteMode := 1
/-- The flag `WO_SetTimes`, `1 << 1`. -/
def WO_SetTimes : WriteMode := 2
/-- The flag `Wo_Sync`, `1 << 2`. -/
def Wo_Sync : WriteMode := 4
/-- The flags `WO_ALL`, `WO_SetPerm | WO_SetTimes`. -/
def WO_ALL : WriteMode := Int.lor WO_SetPerm WO_SetTimes

/-- The method `WriteMode.IsSetPerm`. -/
def WriteMode.IsSetPerm (f : WriteMode) : Bool := Int.land f WO_SetPerm != 0

/-- The method `WriteMode.IsSetTimes`. -/
def WriteMode.IsSetTimes (f : WriteMode) : Bool := Int.land f WO_SetTimes != 0

/-- The method `WriteMode.IsSync`. -/
def WriteMode.IsSync (f : WriteMode) : Bool := Int.land f Wo_Sync != 0

/-- The deferred function of `CreateFile`: the sync, when asked for and no
error stands, then the close, whose error `err2` is assigned under the
condition `err != nil && err == nil`. -/
def CreateFile.deferred (f : Nat) (opt : WriteMode) (err : Option Err) (w : World) :
    World × Option Err :=
  match (if err = none && WriteMode.IsSync opt then os.File.Sync f w else (w, err)) with
  | (w1, err1) =>
    match os.File.Close f w1 with
    | (w2, err2) => (w2, if err1 ≠ none && err1 = none then err2 else err1)

/-- The function `CreateFile`. -/
def CreateFile (filename : String) (r : Reader) (info : FileInfo) (opt : WriteMode)
    (w : World) : World × Option Err :=
  match path_helpers.MkdirAllIfNotExists (filepath.Dir filename) w with
  | (w1, some e) => (w1, some e)
  | (w1, none) =>
    match (if WriteMode.IsSetPerm opt then
             os.OpenFile filename (os.O_WRONLY ||| os.O_CREATE ||| os.O_TRUNC) info.mode w1
           else os.Create filename w1) with
    | (w2, .error e) => (w2, some e)
    | (w2, .ok f) =>
      match io.Copy f r w2 with
      | (w3, some e) => CreateFile.deferred f opt (some e) w3
      | (w3, none) =>
        if WriteMode.IsSetTimes opt then
          match os.Chtimes filename info.modTime info.modTime w3 with
          | (w4, err) => CreateFile.deferred f opt err w4
        else CreateFile.deferred f opt none w3

/-- The function `CreateFileSync`. -/
def CreateFileSync (filename : String) (r : Reader) (info : FileInfo) (w : World) :
    World × Option Err :=
  CreateFile filename r info WO_ALL w

/-! ## copytree.go -/

/-- The type `Destation`: where, under a copy root, a source's output goes. -/
structure Destation where
  Dest : String

/-- The method `Destation.Check`.  The result `pth` is the named result of the
Go function, which no statement assigns: it holds the empty string throughout;
the joined path is the local `p`. -/
def Destation.Check (d : Destation) (dir : String) (w : World) :
    World × String × Option Err :=
  let pth := ""
  let p := filepath.Join dir d.Dest
  let dir := filepath.Dir p
  match path_helpers.IsExistingDir dir w with
  | (w1, true) => (w1, pth, none)
  | (w1, false) =>
    match path_helpers.ResolveMode dir w1 with
    | (w2, .error e) => (w2, pth, some e)
    | (w2, .ok dirMode) =>
      match os.MkdirAll dir dirMode w2 with
      | (w3, some e) => (w3, "", some e)
      | (w3, none) => (w3, pth, none)

/-- The type `Src`: a file source. -/
structure Src extends Destation where
  Src : String
  Info : Option FileInfo

/-- The type `SrcData`: a byte-buffer source. -/
structure SrcData extends Destation where
  Data : List Nat
  Info : Option FileInfo

/-- The type `SrcReader`: a stream source. -/
structure SrcReader extends Destation where
  Info : Option FileInfo
  Reader : Reader

/-- The type `Dir`: a directory source with its ignore predicates. -/
structure Dir extends Destation where
  Src : String
  Ignore : List (String → Bool)

/-- The method `Src.GetSrc`. -/
def Src.GetSrc (s : FileUtils.Src) : String := s.Src

/-- The method `Dir.GetSrc`. -/
def Dir.GetSrc (d : Dir) : String := d.Src

/-- The end of the three `CopyTo` methods of the file, buffer and stream
sources: `SetInfo` with the source's descriptor when there is one, its error
wrapped. -/
def setInfoIfPresent (info : Option FileInfo) (pth : String) (w : World) :
    World × Option Err :=
  match info with
  | some i =>
    match SetInfo pth i w with
    | (w1, e) => (w1, errors.Wrap e "Set info")
  | none => (w, none)

/-- Lines 47 to 53 of `Src.CopyTo`: the copy to the checked path `pth`. -/
def Src.copyAt (s : FileUtils.Src) (pth : String) (w : World) : World × Option Err :=
  match CopyFile s.Src pth w with
  | (w1, some e) => (w1, some (Err.wrapped e "Copy"))
  | (w1, none) => setInfoIfPresent s.Info pth w1

/-- The method `Src.CopyTo`. -/
def Src.CopyTo (s : FileUtils.Src) (dest : String) (w : World) : World × Option Err :=
  match s.toDestation.Check dest w with
  | (w1, _, some e) => (w1, some e)
  | (w1, pth, none) => s.copyAt pth w1

/-- Lines 67 to 73 of `SrcData.CopyTo`: the copy to the checked path `pth`. -/
def SrcData.copyAt (s : SrcData) (pth : String) (w : World) : World × Option Err :=
  match CopyBytes s.Data pth w with
  | (w1, some e) => (w1, some (Err.wrapped e "Copy bytes"))
  | (w1, none) => setInfoIfPresent s.Info pth w1

/-- The method `SrcData.CopyTo`. -/
def SrcData.CopyTo (s : SrcData) (dest : String) (w : World) : World × Option Err :=
  match s.toDestation.Check dest w with
  | (w1, _, some e) => (w1, some e)
  | (w1, pth, none) => s.copyAt pth w1

/-- Lines 87 to 93 of `SrcReader.CopyTo`: the copy to the checked path `pth`. -/
def SrcReader.copyAt (s : SrcReader) (pth : String) (w : World) : World × Option Err :=
  match CopyReader s.Reader pth w with
  | (w1, some e) => (w1, some (Err.wrapped e "Copy bytes"))
  | (w1, none) => setInfoIfPresent s.Info pth w1

/-- The method `SrcReader.CopyTo`. -/
def SrcReader.CopyTo (s : SrcReader) (dest : String) (w : World) : World × Option Err :=
  match s.toDestation.Check dest w with
  | (w1, _, some e) => (w1, some e)
  | (w1, pth, none) => s.copyAt pth w1

/-- The closure `accept` of `Dir.CopyTo`: no ignore predicate holds of the
path. -/
def Dir.accept : List (String → Bool) → String → Bool
  | [], _ => true
  | f :: rest, pth => if f pth then false else Dir.accept rest pth

/-- The callback `Dir.CopyTo` hands to `filepath.Walk`; `src` is the source
root with one trailing separator.  The relative path is
`strings.TrimPrefix(src, s.Src)`, as the source has it.  `Walk` always passes a
descriptor together with a nil error. -/
def Dir.visit (s : Dir) (dest : String) (dirMode : Nat) (src : String) : filepath.WalkFunc :=
  fun path info err w =>
    match err with
    | some e => (w, some e)
    | none =>
      let relPath := strings.TrimPrefix src s.Src
      if !Dir.accept s.Ignore relPath then (w, none)
      else
        let relPath := if s.Dest ≠ "" then filepath.Join s.Dest relPath else relPath
        let dst := filepath.Join dest relPath
        match info with
        | none => (w, none)
        | some info =>
          if FileMode.IsDir info.mode then
            match os.MkdirAll dst dirMode w with
            | (w1, some e) => (w1, some (Err.wrapped e ("MkdirAll \"" ++ dst ++ "\"")))
            | (w1, none) => (w1, none)
          else if FileMode.IsRegular info.mode then CopyFile path dst w
          else (w, none)

/-- The method `Dir.CopyTo`; `fuel` bounds the depth of the walk, and `none`
means the bound was reached. -/
def Dir.CopyTo (fuel : Nat) (s : Dir) (dest : String) (w : World) :
    Option (World × Option Err) :=
  match path_helpers.ResolveMode s.Src w with
  | (w1, .error e) => some (w1, some e)
  | (w1, .ok dirMode) =>
    let src := strings.TrimSuffix s.Src PathSeparator ++ PathSeparator
    filepath.Walk fuel s.Src (Dir.visit s dest dirMode src) w1

/-- The interface `Copier`: a `CopyTo` method, which may change the filesystem,
return an error, or not return (`none`). -/
abbrev Copier := String → World → Option (World × Option Err)

/-- A file source as a `Copier`. -/
def Src.copier (s : FileUtils.Src) : Copier := fun dest w => some (s.CopyTo dest w)

/-- A buffer source as a `Copier`. -/
def SrcData.copier (s : SrcData) : Copier := fun dest w => some (s.CopyTo dest w)

/-- A stream source as a `Copier`. -/
def SrcReader.copier (s : SrcReader) : Copier := fun dest w => some (s.CopyTo dest w)

/-- A directory source as a `Copier`. -/
def Dir.copier (fuel : Nat) (s : Dir) : Copier := fun dest w => s.CopyTo fuel dest w

/-- Lines 154 to 159 of `CopyTree`: the destination root is created, with mode
`os.ModePerm`, unless it is an existing directory. -/
def CopyTree.root (dest : String) (w : World) : World × Option Err :=
  match path_helpers.IsExistingDir dest w with
  | (w1, true) => (w1, none)
  | (w1, false) => os.MkdirAll dest ModePerm w1

/-- The loop of `CopyTree` from index `i` on. -/
def CopyTree.loop (dest : String) : Nat → List Copier → World → Option (World × Option Err)
  | _, [], w => some (w, none)
  | i, c :: rest, w =>
    match c dest w with
    | none => none
    | some (w1, some e) => some (w1, some (Err.wrapped e ("source #" ++ toString i)))
    | some (w1, none) => CopyTree.loop dest (i + 1) rest w1

/-- The function `CopyTree`. -/
def CopyTree (dest : String) (sources : List Copier) (w : World) :
    Option (World × Option Err) :=
  match CopyTree.root dest w with
  | (w1, some e) => some (w1, some e)
  | (w1, none) => CopyTree.loop dest 0 sources w1

/-! ## Notions the statements use -/

/-- The world after the sources of a list have all been invoked once, in
order, each on the world the one before it left, and have all returned
without error; `none` when one of them fails or does not return. -/
def CopyTree.stateAfter (dest : String) : List Copier → World → Option World
  | [], w => some w
  | c :: rest, w =>
    match c dest w with
    | some (w1, none) => CopyTree.stateAfter dest rest w1
    | _ => none

/-- The calls that propagate metadata: `chtimes` and `chmod`. -/
def Call.isMeta : Call → Bool
  | .chtimes _ _ _ => true
  | .chmod _ _ => true
  | _ => false

/-- The metadata calls issued so far, oldest first. -/
def World.metaCalls (w : World) : List Call := w.log.filter Call.isMeta

/-- The mode of the entry a path names, if it names one. -/
def FS.modeOf (fs : FS) (p : String) : Option Nat :=
  match fs.resolve p with
  | .found _ nd => some nd.mode
  | _ => none

/-- The content of the entry a path names, if it names one. -/
def FS.dataOf (fs : FS) (p : String) : Option (List Nat) :=
  match fs.resolve p with
  | .found _ nd => some nd.data
  | _ => none

/-- What a run leaves to look at: the names, the inodes, the calls and the
result; `none` when the run did not return. -/
def observe (r : Option (World × Option Err)) :
    Option (List (String × Nat) × List Inode × List Call × Option Err) :=
  r.map (fun x => (x.1.fs.names, x.1.fs.inodes, x.1.log, x.2))

/-! ## Example filesystems -/

/-- A directory inode with the given permission bits. -/
def dirNode (perm : Nat) : Inode :=
  { mode := ModeDir ||| perm, modTime := 0, atime := 0, data := [] }

/-- A regular-file inode. -/
def fileNode (perm mtime : Nat) (data : List Nat) : Inode :=
  { mode := perm, modTime := mtime, atime := mtime, data := data }

/-- No injected failure. -/
def noFaults : Call → Option Err := fun _ => none

/-- A working directory with: `src`, holding the file `f`, its hard link `h`,
the directory `d` with the file `g`, and the empty directory `e`; `t`, holding
only directories (`t/a`, `t/a/b`); and the empty directory `out`. -/
def demoFS : FS :=
  { names := [(".", 0), ("src", 1), ("src/f", 2), ("src/h", 2), ("src/d", 3),
              ("src/d/g", 4), ("src/e", 5), ("t", 6), ("t/a", 7), ("t/a/b", 8), ("out", 9)],
    inodes := [dirNode 0o755, dirNode 0o755, fileNode 0o644 5 [1, 2, 3], dirNode 0o700,
               fileNode 0o600 7 [9], dirNode 0o755, dirNode 0o755, dirNode 0o755,
               dirNode 0o755, dirNode 0o755],
    umask := 0o022, clock := 100, faults := noFaults }

/-- The example filesystem before any call. -/
def demoWorld : World := { fs := demoFS, log := [] }

/-- The example filesystem on a device where every sync and every close
fails (a full disk). -/
def fullDiskWorld : World :=
  { fs := { demoFS with faults := fun c =>
      match c with
      | .sync _ => some (Err.sys "sync" "out/a.txt" .ENOSPC)
      | .close _ => some (Err.sys "close" "out/a.txt" .ENOSPC)
      | _ => none },
    log := [] }

/-- The example filesystem where every close fails and nothing else does. -/
def closeFailsWorld : World :=
  { fs := { demoFS with faults := fun c =>
      match c with
      | .close _ => some (Err.sys "close" "out/a.txt" .ENOSPC)
      | _ => none },
    log := [] }

/-- A caller's `Copier` that creates the directory `name` under the root. -/
def mkdirCopier (name : String) : Copier :=
  fun dest w => some (os.MkdirAll (filepath.Join dest name) 0o755 w)

/-- A caller's `Copier` that does nothing and never fails. -/
def idleCopier : Copier := fun _ w => some (w, none)


/-- Three sources for the root `out`: a copier creating `out/s0`, a buffer
source for `out/a.txt`, a copier creating `out/s2`. -/
def demoSources : List Copier :=
  [mkdirCopier "s0",
   SrcData.copier { Dest := "a.txt", Data := [1, 2], Info := none },
   mkdirCopier "s2"]

/-- A descriptor a caller supplies: mode `0600`, modification time 42. -/
def demoInfo : FileInfo := { name := "x", mode := 0o600, modTime := 42, ino := 0 }

/-- A buffer source with a descriptor, for the destination `a.txt`. -/
def demoBuffer : SrcData := { Dest := "a.txt", Data := [1, 2], Info := some demoInfo }


/-- The inode of a directory created in the example filesystem with the
permission bits `0755`. -/
def demoNewDir : Inode :=
  { mode := ModeDir ||| 0o755, modTime := 100, atime := 100, data := [] }

/-- A descriptor of mode `0666`. -/
def demoInfoPlain : FileInfo := { name := "x", mode := 0o666, modTime := 42, ino := 0 }

/-- A descriptor of mode `0755` with the setuid bit. -/
def demoInfoSetuid : FileInfo :=
  { name := "x", mode := ModeSetuid ||| 0o755, modTime := 42, ino := 0 }

/-! ## Theorems -/

theorem loop_first_failure (dest : String) (sources : List Copier) :
    ∀ (k i : Nat) (w0 wi wi' : World) (c : Copier) (e : Err),
      sources[i]? = some c →
      CopyTree.stateAfter dest (sources.take i) w0 = some wi →
      c dest wi = some (wi', some e) →
      CopyTree.loop dest k sources w0 =
        some (wi', some (Err.wrapped e ("source #" ++ toString (k + i)))) := by
  induction sources with
  | nil => intro k i w0 wi wi' c e hc; simp at hc
  | cons a rest ih =>
    intro k i w0 wi wi' c e hc hst hfail
    cases i with
    | zero =>
      simp at hc
      subst hc
      simp [CopyTree.stateAfter] at hst
      subst hst
      simp [CopyTree.loop, hfail]
    | succ j =>
      simp at hc
      simp only [List.take_succ_cons, CopyTree.stateAfter] at hst
      cases ha : a dest w0 with
      | none => simp [ha] at hst
      | some r =>
        rcases r with ⟨w1, _ | e1⟩
        · simp only [ha] at hst
          have h := ih (k + 1) j w1 wi wi' c e hc hst hfail
          have hk : k + 1 + j = k + (j + 1) := by omega
          rw [hk] at h
          simp only [CopyTree.loop, ha, h]
        · simp [ha] at hst

theorem loop_all_succeed (dest : String) (sources : List Copier) :
    ∀ (k : Nat) (w0 wn : World),
      CopyTree.stateAfter dest sources w0 = some wn →
      CopyTree.loop dest k sources w0 = some (wn, none) := by
  induction sources with
  | nil => intro k w0 wn h; simp [CopyTree.stateAfter] at h; simp [CopyTree.loop, h]
  | cons a rest ih =>
    intro k w0 wn h
    simp only [CopyTree.stateAfter] at h
    cases ha : a dest w0 with
    | none => simp [ha] at h
    | some r =>
      rcases r with ⟨w1, _ | e1⟩
      · simp only [ha] at h
        simp only [CopyTree.loop, ha, ih (k + 1) w1 wn h]
      · simp [ha] at h

/-- C1, as amended.  When the destination root cannot be ensured, `CopyTree`
returns that error and invokes no source.  When it can: if the sources before
index `i` all return without error, leaving the world `wi`, and source `i`
fails there with `e`, `CopyTree` returns `e` wrapped with `source #i` and the
world is the one source `i` left (the effects of the sources before it remain,
no later source has acted); if all sources return without error, `CopyTree`
returns success and the world is the one they left, each invoked once, in
order. -/
theorem C1_CopyTree_stops_at_first_failure (dest : String) (sources : List Copier)
    (w w0 : World) (r : Option Err) (hroot : CopyTree.root dest w = (w0, r)) :
    (∀ e, r = some e → CopyTree dest sources w = some (w0, some e)) ∧
    (r = none →
      (∀ (i : Nat) (c : Copier) (wi wi' : World) (e : Err),
        sources[i]? = some c →
        CopyTree.stateAfter dest (sources.take i) w0 = some wi →
        c dest wi = some (wi', some e) →
        CopyTree dest sources w = some (wi', some (Err.wrapped e ("source #" ++ toString i)))) ∧
      (∀ wn, CopyTree.stateAfter dest sources w0 = some wn →
        CopyTree dest sources w = some (wn, none))) := by
  refine ⟨?_, ?_⟩
  · intro e he
    subst he
    simp [CopyTree, hroot]
  · intro hr
    subst hr
    refine ⟨?_, ?_⟩
    · intro i c wi wi' e hc hst hfail
      have := loop_first_failure dest sources 0 i w0 wi wi' c e hc hst hfail
      simp only [Nat.zero_add] at this
      simp [CopyTree, hroot, this]
    · intro wn h
      simp [CopyTree, hroot, loop_all_succeed dest sources 0 w0 wn h]


/-- C1 at a concrete input: with the root `out` and three sources of which the
second fails, the error names index 1, `out/s0` is there and `out/s2` is
not. -/
theorem C1_CopyTree_witness :
    observe (CopyTree "out" demoSources demoWorld) =
      some (("out/s0", 10) :: demoFS.names, demoFS.inodes ++ [demoNewDir],
            [.stat "out", .mkdirAll "out/s0" 0o755, .stat "out", .openWrite "" 0o666],
            some (Err.wrapped (Err.wrapped (Err.sys "open" "" .ENOENT) "Copy bytes")
              "source #1")) := by
  have h := ((C1_CopyTree_stops_at_first_failure "out" demoSources demoWorld _ none rfl).2
    rfl).1 1 _ _ _ _ rfl rfl rfl
  rw [h]
  decide

/-- C1 as stated fails: the root `src/f` is a regular file, so it cannot be
made a directory.  With no source at all, and with one source that never
fails, no source fails, and still `CopyTree` returns an error (`MkdirAll`'s,
not wrapped with an index), without invoking a source. -/
theorem C1_CopyTree_counterexample :
    observe (CopyTree "src/f" [] demoWorld) =
      some (demoFS.names, demoFS.inodes, [.stat "src/f", .mkdirAll "src/f" 0o777],
            some (Err.sys "mkdir" "src/f" .ENOTDIR)) ∧
    (∀ d w, idleCopier d w = some (w, none)) ∧
    observe (CopyTree "src/f" [idleCopier] demoWorld) =
      some (demoFS.names, demoFS.inodes, [.stat "src/f", .mkdirAll "src/f" 0o777],
            some (Err.sys "mkdir" "src/f" .ENOTDIR)) := by
  refine ⟨by decide, fun _ _ => rfl, by decide⟩

/-! ### The empty destination path -/

theorem Create_empty (w : World) : ∃ e, (os.Create "" w).2 = .error e := by
  simp only [os.Create, os.OpenFile, FS.resolve]
  cases hf : w.fs.faults (Call.openWrite "" 0o666) with
  | some e => exact ⟨e, rfl⟩
  | none => exact ⟨_, rfl⟩

theorem CopyReader_empty (rd : Reader) (w : World) : (CopyReader rd "" w).2 ≠ none := by
  obtain ⟨e, he⟩ := Create_empty w
  have h : os.Create "" w = ((os.Create "" w).1, .error e) := by rw [← he]
  simp only [CopyReader]
  rw [h]
  simp

theorem CopyFileContents_empty (src : String) (w : World) :
    (CopyFileContents src "" w).2 ≠ none := by
  simp only [CopyFileContents]
  rcases hop : os.Open src w with ⟨w1, e | hd⟩
  · simp
  · simp only
    exact CopyReader_empty _ _

theorem Stat_empty (w : World) : ∃ e, (os.Stat "" w).2 = .error e := by
  simp only [os.Stat, os.statAt, FS.resolve]
  cases hf : w.fs.faults (Call.stat "") with
  | some e => exact ⟨e, rfl⟩
  | none => exact ⟨_, rfl⟩

theorem resolve_empty (fs : FS) : fs.resolve "" = Lookup.fails Errno.ENOENT := by
  simp [FS.resolve]

theorem Link_empty (src : String) (w : World) : (os.Link src "" w).2 ≠ none := by
  simp only [os.Link, resolve_empty]
  cases hf : w.fs.faults (Call.link src "") with
  | some e => simp
  | none =>
    simp only
    cases hr : w.fs.resolve src with
    | absent => simp
    | fails e => simp
    | found i nd =>
      simp only
      by_cases hd : FileMode.IsDir nd.mode = true
      · simp [hd]
      · simp [hd]

theorem linkOrCopy_empty (src : String) (sfi : FileInfo) (w : World) :
    (CopyFile.linkOrCopy src "" sfi w).2 ≠ none := by
  have hl := Link_empty src w
  simp only [CopyFile.linkOrCopy]
  rcases hlk : os.Link src "" w with ⟨w1, _ | e⟩
  · rw [hlk] at hl; exact absurd rfl hl
  · simp only
    have hc := CopyFileContents_empty src w1
    rcases hcf : CopyFileContents src "" w1 with ⟨w2, _ | e2⟩
    · rw [hcf] at hc; exact absurd rfl hc
    · simp

theorem CopyFile_empty (src : String) (w : World) : (CopyFile src "" w).2 ≠ none := by
  simp only [CopyFile]
  rcases hst : os.Stat src w with ⟨w1, e | sfi⟩
  · simp
  · simp only
    cases hreg : FileMode.IsRegular sfi.mode
    · simp
    · simp only [Bool.not_true, Bool.false_eq_true, if_false]
      obtain ⟨e, he⟩ := Stat_empty w1
      have h : os.Stat "" w1 = ((os.Stat "" w1).1, .error e) := by rw [← he]
      rw [h]
      simp only
      cases hne : os.IsNotExist e
      · simp
      · simp only [Bool.not_true, Bool.false_eq_true, if_false]
        exact linkOrCopy_empty _ _ _

theorem Check_path (d : Destation) (dir : String) (w : World) : (d.Check dir w).2.1 = "" := by
  simp only [Destation.Check]
  split
  · rfl
  · split
    · rfl
    · split <;> rfl

theorem SrcData_CopyTo_fails (s : SrcData) (dest : String) (w : World) :
    (s.CopyTo dest w).2 ≠ none := by
  have hp := Check_path s.toDestation dest w
  simp only [SrcData.CopyTo]
  rcases hc : s.toDestation.Check dest w with ⟨w1, pth, _ | e⟩
  · rw [hc] at hp
    simp only at hp
    subst hp
    simp only [SrcData.copyAt, CopyBytes]
    have := CopyReader_empty (bytes.NewBuffer s.Data) w1
    rcases hcr : CopyReader (bytes.NewBuffer s.Data) "" w1 with ⟨w2, _ | e2⟩
    · rw [hcr] at this; exact absurd rfl this
    · simp
  · simp

theorem SrcReader_CopyTo_fails (s : SrcReader) (dest : String) (w : World) :
    (s.CopyTo dest w).2 ≠ none := by
  have hp := Check_path s.toDestation dest w
  simp only [SrcReader.CopyTo]
  rcases hc : s.toDestation.Check dest w with ⟨w1, pth, _ | e⟩
  · rw [hc] at hp
    simp only at hp
    subst hp
    simp only [SrcReader.copyAt]
    have := CopyReader_empty s.Reader w1
    rcases hcr : CopyReader s.Reader "" w1 with ⟨w2, _ | e2⟩
    · rw [hcr] at this; exact absurd rfl this
    · simp
  · simp

theorem Src_CopyTo_fails (s : Src) (dest : String) (w : World) :
    (s.CopyTo dest w).2 ≠ none := by
  have hp := Check_path s.toDestation dest w
  simp only [Src.CopyTo]
  rcases hc : s.toDestation.Check dest w with ⟨w1, pth, _ | e⟩
  · rw [hc] at hp
    simp only at hp
    subst hp
    simp only [Src.copyAt]
    have := CopyFile_empty s.Src w1
    rcases hcr : CopyFile s.Src "" w1 with ⟨w2, _ | e2⟩
    · rw [hcr] at this; exact absurd rfl this
    · simp
  · simp

/-- C2: the code does not do what the claim says.  The callback computes the
relative path from the source root alone, not from the visited path, so every
visited entry is mapped to one and the same destination path: for each source
and root there is one path `dst` such that every accepted directory is
answered with `MkdirAll` of `dst` and every accepted regular file with
`CopyFile` onto `dst`.  For the tree
`src` (files `f`, `h`, `d/g`; directories `d`, `e`) and the root `dst`, with
any fuel of three or more: the root `dst` is created, the first file met is
copied onto the directory `dst`, and `CopyTo` fails; nothing else is created.
For the tree `t` (directories `a`, `a/b`): `CopyTo` succeeds, `MkdirAll` is
called on `dst` three times, and neither `dst/a` nor `dst/a/b` exists. -/
theorem C2_Dir_CopyTo_single_destination :
    (∀ (s : Dir) (dest : String) (dirMode : Nat) (src : String), ∃ dst : String,
      ∀ (path : String) (info : FileInfo) (w : World),
        Dir.accept s.Ignore (strings.TrimPrefix src s.Src) = true →
        Dir.visit s dest dirMode src path (some info) none w =
          if FileMode.IsDir info.mode then
            match os.MkdirAll dst dirMode w with
            | (w1, some e) => (w1, some (Err.wrapped e ("MkdirAll \"" ++ dst ++ "\"")))
            | (w1, none) => (w1, none)
          else if FileMode.IsRegular info.mode then CopyFile path dst w
          else (w, none)) ∧
    (∀ n, observe (Dir.CopyTo (n + 3) { Dest := "", Src := "src", Ignore := [] } "dst"
        demoWorld) =
      some (("dst", 10) :: demoFS.names,
            demoFS.inodes ++ [demoNewDir],
            [.stat "src", .lstat "src", .readdir "src", .mkdirAll "dst" (ModeDir ||| 0o755),
             .lstat "src/d", .readdir "src/d", .mkdirAll "dst" (ModeDir ||| 0o755),
             .lstat "src/d/g", .stat "src/d/g", .stat "dst"],
            some (Err.nonRegularDestination "dst" (ModeDir ||| 0o755)))) ∧
    (∀ n, observe (Dir.CopyTo (n + 3) { Dest := "", Src := "t", Ignore := [] } "dst"
        demoWorld) =
      some (("dst", 10) :: demoFS.names,
            demoFS.inodes ++ [demoNewDir],
            [.stat "t", .lstat "t", .readdir "t", .mkdirAll "dst" (ModeDir ||| 0o755),
             .lstat "t/a", .readdir "t/a", .mkdirAll "dst" (ModeDir ||| 0o755),
             .lstat "t/a/b", .readdir "t/a/b", .mkdirAll "dst" (ModeDir ||| 0o755)],
            none)) := by
  refine ⟨?_, fun n => ?_, fun n => ?_⟩
  · intro s dest dirMode src
    refine ⟨filepath.Join dest (if s.Dest ≠ "" then
      filepath.Join s.Dest (strings.TrimPrefix src s.Src)
      else strings.TrimPrefix src s.Src), ?_⟩
    intro path info w hacc
    simp only [Dir.visit, hacc, Bool.not_true, Bool.false_eq_true, if_false]
  · rfl
  · rfl

/-- C3: the code does not do what the claim says.  The predicates see the same
string for every entry (`/` for a source root without a trailing separator),
never the entry's own relative path, and a refused entry is answered with
`nil`, not `SkipDir`, whatever the entry, so the walk goes into a refused
directory.  For the tree `t` (directories
`a`, `a/b`) and the root `dst`: with a predicate matching the relative path
`a`, nothing is skipped (`MkdirAll` is called for `t`, `t/a` and `t/a/b`);
with a predicate matching `/`, which is no entry's relative path, every entry
is skipped, the root included, and the walk still examines `t/a` and
`t/a/b`. -/
theorem C3_Dir_CopyTo_ignore_sees_constant :
    (∀ (s : Dir) (dest : String) (dirMode : Nat) (src path : String)
        (info : Option FileInfo) (w : World),
      Dir.accept s.Ignore (strings.TrimPrefix src s.Src) = false →
      Dir.visit s dest dirMode src path info none w = (w, none)) ∧
    (∀ n, observe (Dir.CopyTo (n + 3)
        { Dest := "", Src := "t", Ignore := [fun p => p == "a"] } "dst" demoWorld) =
      some (("dst", 10) :: demoFS.names,
            demoFS.inodes ++ [demoNewDir],
            [.stat "t", .lstat "t", .readdir "t", .mkdirAll "dst" (ModeDir ||| 0o755),
             .lstat "t/a", .readdir "t/a", .mkdirAll "dst" (ModeDir ||| 0o755),
             .lstat "t/a/b", .readdir "t/a/b", .mkdirAll "dst" (ModeDir ||| 0o755)],
            none)) ∧
    (∀ n, observe (Dir.CopyTo (n + 3)
        { Dest := "", Src := "t", Ignore := [fun p => p == "/"] } "dst" demoWorld) =
      some (demoFS.names, demoFS.inodes,
            [.stat "t", .lstat "t", .readdir "t", .lstat "t/a", .readdir "t/a",
             .lstat "t/a/b", .readdir "t/a/b"],
            none)) := by
  refine ⟨?_, fun n => ?_, fun n => ?_⟩
  · intro s dest dirMode src path info w hacc
    simp only [Dir.visit, hacc, Bool.not_false, if_true]
  · rfl
  · rfl

/-- C4: the code does not do what the claim says.  `Check` returns its named
result `pth`, which is never assigned: the path it returns is always empty.
So every `CopyTo` of a buffer, stream or file source fails: it copies to the
empty path.  For the destination `a.txt` under the existing directory `out`,
`Check` succeeds with the empty path, not `out/a.txt`; the buffer source and
the file source then try to create the empty path and fail, and nothing is
written under `out`. -/
theorem C4_Check_returns_empty_path :
    (∀ (d : Destation) (dir : String) (w : World), (d.Check dir w).2.1 = "") ∧
    (∀ (s : SrcData) (dest : String) (w : World), (s.CopyTo dest w).2 ≠ none) ∧
    (∀ (s : SrcReader) (dest : String) (w : World), (s.CopyTo dest w).2 ≠ none) ∧
    (∀ (s : Src) (dest : String) (w : World), (s.CopyTo dest w).2 ≠ none) ∧
    filepath.Join "out" "a.txt" = "out/a.txt" ∧
    (Destation.Check { Dest := "a.txt" } "out" demoWorld).2 = ("", none) ∧
    observe (some (SrcData.CopyTo { Dest := "a.txt", Data := [1, 2], Info := none } "out"
        demoWorld)) =
      some (demoFS.names, demoFS.inodes, [.stat "out", .openWrite "" 0o666],
            some (Err.wrapped (Err.sys "open" "" .ENOENT) "Copy bytes")) ∧
    observe (some (Src.CopyTo { Dest := "a.txt", Src := "src/f", Info := none } "out"
        demoWorld)) =
      some (demoFS.names, demoFS.inodes,
            [.stat "out", .stat "src/f", .stat "", .link "src/f" "", .openRead "src/f",
             .openWrite "" 0o666, .close 2],
            some (Err.wrapped (Err.sys "open" "" .ENOENT) "Copy")) := by
  exact ⟨Check_path, SrcData_CopyTo_fails, SrcReader_CopyTo_fails, Src_CopyTo_fails,
    by decide, by decide, by decide, by decide⟩

/-! ### Lookups in a changed filesystem -/

theorem entry_inode (fs : FS) (key : String) (i : Nat) (nd : Inode)
    (h : fs.entry key = some (i, nd)) : fs.inodes[i]? = some nd := by
  simp only [FS.entry] at h
  cases hl : List.lookup key fs.names with
  | none => simp [hl] at h
  | some j =>
    simp only [hl] at h
    cases hj : fs.inodes[j]? with
    | none => simp [hj] at h
    | some x =>
      simp only [hj, Option.some.injEq, Prod.mk.injEq] at h
      rw [← h.1, ← h.2]; exact hj

theorem resolve_inode (fs : FS) (p : String) (i : Nat) (nd : Inode)
    (h : fs.resolve p = Lookup.found i nd) : fs.inodes[i]? = some nd := by
  simp only [FS.resolve] at h
  split at h
  · simp at h
  · split at h
    · simp at h
    · split at h
      · rename_i j x he
        simp only [Lookup.found.injEq] at h
        rw [← h.1, ← h.2]
        exact entry_inode fs _ j x he
      · simp at h

theorem entry_setInode (fs : FS) (i : Nat) (nd nd' : Inode)
    (h : fs.inodes[i]? = some nd) (key : String) :
    (fs.setInode i nd').entry key =
      (fs.entry key).map (fun r => (r.1, if r.1 = i then nd' else r.2)) := by
  have hlt : i < fs.inodes.length := by
    by_contra hge
    rw [List.getElem?_eq_none (by omega)] at h
    simp at h
  simp only [FS.entry, FS.setInode]
  cases hl : List.lookup key fs.names with
  | none => rfl
  | some j =>
    simp only [List.getElem?_set]
    by_cases hij : i = j
    · subst hij
      simp [hlt, h]
    · have hji : ¬ j = i := fun hh => hij hh.symm
      simp only [hij, if_false]
      cases hj : fs.inodes[j]? with
      | none => rfl
      | some x => simp [hji]

theorem checkDirs_setInode (fs : FS) (i : Nat) (nd nd' : Inode)
    (h : fs.inodes[i]? = some nd) (hd : FileMode.IsDir nd'.mode = FileMode.IsDir nd.mode)
    (ds : List String) : (fs.setInode i nd').checkDirs ds = fs.checkDirs ds := by
  induction ds with
  | nil => rfl
  | cons d ds ih =>
    simp only [FS.checkDirs, entry_setInode fs i nd nd' h d]
    cases he : fs.entry d with
    | none => rfl
    | some r =>
      rcases r with ⟨j, x⟩
      simp only [Option.map_some']
      by_cases hji : j = i
      · subst hji
        have hx : x = nd := by
          have := entry_inode fs d j x he
          rw [h] at this
          exact (Option.some.inj this).symm
        subst hx
        simp only [if_true, hd, ih]
      · simp only [hji, if_false, ih]

/-- The lookup of a path after the inode `i` has been replaced by one of the
same kind (directory or not): the same entry, with the new inode at `i`. -/
theorem resolve_setInode (fs : FS) (i : Nat) (nd nd' : Inode)
    (h : fs.inodes[i]? = some nd) (hd : FileMode.IsDir nd'.mode = FileMode.IsDir nd.mode)
    (p : String) :
    (fs.setInode i nd').resolve p =
      match fs.resolve p with
      | .found j x => Lookup.found j (if j = i then nd' else x)
      | .absent => Lookup.absent
      | .fails e => Lookup.fails e := by
  simp only [FS.resolve]
  by_cases hp : p = ""
  · simp [hp]
  · simp only [hp, if_false, checkDirs_setInode fs i nd nd' h hd,
      entry_setInode fs i nd nd' h]
    cases hc : fs.checkDirs (passedDirs p) with
    | some e => rfl
    | none =>
      cases he : fs.entry (filepath.Clean p) with
      | none => rfl
      | some r => rfl

theorem resolve_setInode_found (fs : FS) (i : Nat) (nd nd' : Inode)
    (hd : FileMode.IsDir nd'.mode = FileMode.IsDir nd.mode)
    (p : String) (h : fs.resolve p = Lookup.found i nd) :
    (fs.setInode i nd').resolve p = Lookup.found i nd' := by
  rw [resolve_setInode fs i nd nd' (resolve_inode fs p i nd h) hd p, h]
  simp

theorem inodes_setInode_ne (fs : FS) (i j : Nat) (nd : Inode) (hij : j ≠ i) :
    (fs.setInode i nd).inodes[j]? = fs.inodes[j]? := by
  simp only [FS.setInode, List.getElem?_set]
  have : ¬ i = j := fun h => hij h.symm
  simp [this]

theorem entry_addNode_self (fs : FS) (p : String) (nd : Inode) :
    (fs.addNode p nd).entry (filepath.Clean p) = some (fs.inodes.length, nd) := by
  simp [FS.entry, FS.addNode, List.lookup]

theorem entry_addNode_of_some (fs : FS) (p key : String) (nd : Inode) (r : Nat × Inode)
    (h : fs.entry key = some r) (hne : key ≠ filepath.Clean p) :
    (fs.addNode p nd).entry key = some r := by
  have hi := entry_inode fs key r.1 r.2 h
  have hlt : r.1 < fs.inodes.length := by
    by_contra hge
    rw [List.getElem?_eq_none (by omega)] at hi
    simp at hi
  simp only [FS.entry] at h
  simp only [FS.entry, FS.addNode, List.lookup]
  have hb : (key == filepath.Clean p) = false := by simpa using hne
  simp only [hb]
  cases hl : List.lookup key fs.names with
  | none => simp [hl] at h
  | some j =>
    simp only [hl] at h ⊢
    cases hj : fs.inodes[j]? with
    | none => simp [hj] at h
    | some x =>
      simp only [hj, Option.some.injEq] at h
      have hjl : j < fs.inodes.length := by
        by_contra hge
        rw [List.getElem?_eq_none (by omega)] at hj
        simp at hj
      rw [List.getElem?_append_left hjl, hj]
      simp [h]

theorem inodes_addNode_of_some (fs : FS) (p : String) (nd x : Inode) (i : Nat)
    (h : fs.inodes[i]? = some x) : (fs.addNode p nd).inodes[i]? = some x := by
  have hlt : i < fs.inodes.length := by
    by_contra hge
    rw [List.getElem?_eq_none (by omega)] at h
    simp at h
  simp only [FS.addNode]
  rw [List.getElem?_append_left hlt, h]

theorem checkDirs_addNode (fs : FS) (p : String) (nd : Inode)
    (habs : fs.entry (filepath.Clean p) = none) (ds : List String)
    (hc : fs.checkDirs ds = none) : (fs.addNode p nd).checkDirs ds = none := by
  induction ds with
  | nil => rfl
  | cons d ds ih =>
    simp only [FS.checkDirs] at hc ⊢
    cases he : fs.entry d with
    | none => simp [he] at hc
    | some r =>
      rcases r with ⟨j, x⟩
      simp only [he] at hc
      have hne : d ≠ filepath.Clean p := by
        intro hh
        rw [hh, habs] at he
        simp at he
      rw [entry_addNode_of_some fs p d nd (j, x) he hne]
      simp only
      by_cases hdir : FileMode.IsDir x.mode = true
      · simp only [hdir, if_true] at hc ⊢
        exact ih hc
      · simp [hdir] at hc

theorem resolve_absent (fs : FS) (p : String) (h : fs.resolve p = Lookup.absent) :
    p ≠ "" ∧ fs.checkDirs (passedDirs p) = none ∧ fs.entry (filepath.Clean p) = none := by
  simp only [FS.resolve] at h
  by_cases hp : p = ""
  · simp [hp] at h
  · simp only [hp, if_false] at h
    refine ⟨hp, ?_⟩
    cases hc : fs.checkDirs (passedDirs p) with
    | some e => simp [hc] at h
    | none =>
      simp only [hc] at h
      cases he : fs.entry (filepath.Clean p) with
      | none => exact ⟨rfl, rfl⟩
      | some r => simp [he] at h

/-- The lookup of a path finds the entry just created under it. -/
theorem resolve_addNode (fs : FS) (p : String) (nd : Inode)
    (h : fs.resolve p = Lookup.absent) :
    (fs.addNode p nd).resolve p = Lookup.found fs.inodes.length nd := by
  obtain ⟨hp, hc, he⟩ := resolve_absent fs p h
  simp only [FS.resolve, hp, if_false, checkDirs_addNode fs p nd he _ hc,
    entry_addNode_self]

/-! ### Mode bits -/

theorem and_right_zero (a b c : Nat) (h : b &&& c = 0) : (a &&& b) &&& c = 0 := by
  rw [Nat.and_assoc, h, Nat.and_zero]

theorem created_type (fs : FS) (perm : Nat) : fs.created perm &&& ModeType = 0 := by
  have h1 : ModePerm &&& ModeType = 0 := by decide
  have h2 : (ModeSetuid ||| ModeSetgid ||| ModeSticky) &&& ModeType = 0 := by decide
  have ha : FileMode.Perm perm &&& (ModePerm ^^^ FileMode.Perm fs.umask) &&& ModeType = 0 := by
    simp only [FileMode.Perm]
    have : perm &&& ModePerm &&& (ModePerm ^^^ (fs.umask &&& ModePerm)) &&& ModeType
        = perm &&& (ModePerm ^^^ (fs.umask &&& ModePerm)) &&& (ModePerm &&& ModeType) := by
      ac_rfl
    rw [this, h1, Nat.and_zero]
  have hb : perm &&& (ModeSetuid ||| ModeSetgid ||| ModeSticky) &&& ModeType = 0 :=
    and_right_zero _ _ _ h2
  simp only [FS.created]
  rw [Nat.and_comm, Nat.and_or_distrib_left, Nat.and_comm, ha, Nat.and_comm, hb]
  rfl

theorem regular_type (m : Nat) (h : FileMode.IsRegular m = true) : m &&& ModeType = 0 := by
  simpa [FileMode.IsRegular] using h

theorem type_zero_not_dir (m : Nat) (h : m &&& ModeType = 0) : FileMode.IsDir m = false := by
  have h1 : ModeType &&& ModeDir = ModeDir := by decide
  have : m &&& ModeDir = 0 := by
    rw [← h1, ← Nat.and_assoc, h, Nat.zero_and]
  simp [FileMode.IsDir, this]

theorem syscallMode_type (x : Nat) : syscallMode x &&& ModeType = 0 := by
  have h : (ModePerm ||| ModeSetuid ||| ModeSetgid ||| ModeSticky) &&& ModeType = 0 := by decide
  simp only [syscallMode]
  exact and_right_zero _ _ _ h

/-! ### The metadata calls of each function -/

theorem Stat_log (p : String) (w : World) : (os.Stat p w).1.log = w.log ++ [.stat p] := rfl

theorem Link_log (a b : String) (w : World) :
    (os.Link a b w).1.log = w.log ++ [.link a b] := by
  simp only [os.Link]
  repeat' split
  all_goals rfl

theorem OpenFile_log (p : String) (flag perm : Nat) (w : World) :
    (os.OpenFile p flag perm w).1.log = w.log ++ [.openWrite p perm] := by
  simp only [os.OpenFile]
  repeat' split
  all_goals rfl

theorem Open_log (p : String) (w : World) :
    (os.Open p w).1.log = w.log ++ [.openRead p] := by
  simp only [os.Open]
  repeat' split
  all_goals rfl

theorem Read_log (h : Nat) (w : World) :
    (os.File.Read h w).1.log = w.log ++ [.read h] := by
  simp only [os.File.Read]
  repeat' split
  all_goals rfl

theorem Write_log (h : Nat) (data : List Nat) (w : World) :
    (os.File.Write h data w).1.log = w.log ++ [.write h data] := by
  simp only [os.File.Write]
  repeat' split
  all_goals rfl

theorem metaCalls_of_log (w w' : World) (c : Call) (h : w'.log = w.log ++ [c])
    (hc : c.isMeta = false) : w'.metaCalls = w.metaCalls := by
  simp [World.metaCalls, h, List.filter_append, List.filter, hc]

theorem metaCalls_Stat (p : String) (w : World) : (os.Stat p w).1.metaCalls = w.metaCalls :=
  metaCalls_of_log _ _ _ (Stat_log p w) rfl

theorem metaCalls_Link (a b : String) (w : World) :
    (os.Link a b w).1.metaCalls = w.metaCalls :=
  metaCalls_of_log _ _ _ (Link_log a b w) rfl

theorem metaCalls_OpenFile (p : String) (flag perm : Nat) (w : World) :
    (os.OpenFile p flag perm w).1.metaCalls = w.metaCalls :=
  metaCalls_of_log _ _ _ (OpenFile_log p flag perm w) rfl

theorem metaCalls_Open (p : String) (w : World) : (os.Open p w).1.metaCalls = w.metaCalls :=
  metaCalls_of_log _ _ _ (Open_log p w) rfl

theorem metaCalls_Read (h : Nat) (w : World) : (os.File.Read h w).1.metaCalls = w.metaCalls :=
  metaCalls_of_log _ _ _ (Read_log h w) rfl

theorem metaCalls_Write (h : Nat) (data : List Nat) (w : World) :
    (os.File.Write h data w).1.metaCalls = w.metaCalls :=
  metaCalls_of_log _ _ _ (Write_log h data w) rfl

theorem metaCalls_Sync (h : Nat) (w : World) : (os.File.Sync h w).1.metaCalls = w.metaCalls :=
  metaCalls_of_log _ _ _ rfl rfl

theorem metaCalls_Close (h : Nat) (w : World) : (os.File.Close h w).1.metaCalls = w.metaCalls :=
  metaCalls_of_log _ _ _ rfl rfl

theorem metaCalls_Copy (out : Nat) (rd : Reader) (w : World) :
    (io.Copy out rd w).1.metaCalls = w.metaCalls := by
  have hread : (io.readAll rd w).1.metaCalls = w.metaCalls := by
    cases rd with
    | file h => exact metaCalls_Read h w
    | mem d e => rfl
  simp only [io.Copy]
  split
  · exact hread
  · have hw := metaCalls_Write out (io.readAll rd w).2.1 (io.readAll rd w).1
    split <;> rename_i h <;> rw [h] at hw <;> exact hw.trans hread

theorem metaCalls_CopyReader (rd : Reader) (dst : String) (w : World) :
    (CopyReader rd dst w).1.metaCalls = w.metaCalls := by
  have hc : (os.Create dst w).1.metaCalls = w.metaCalls := metaCalls_OpenFile _ _ _ _
  simp only [CopyReader]
  rcases hcr : os.Create dst w with ⟨w1, e | out⟩
  · rw [hcr] at hc; exact hc
  · rw [hcr] at hc
    simp only
    have hcp := metaCalls_Copy out rd w1
    rcases hio : io.Copy out rd w1 with ⟨w2, _ | e2⟩
    · rw [hio] at hcp
      simp only
      exact (metaCalls_Close _ _).trans ((metaCalls_Sync out w2).trans (hcp.trans hc))
    · rw [hio] at hcp
      simp only
      exact (metaCalls_Close _ _).trans (hcp.trans hc)

theorem metaCalls_CopyFileContents (src dst : String) (w : World) :
    (CopyFileContents src dst w).1.metaCalls = w.metaCalls := by
  have ho := metaCalls_Open src w
  simp only [CopyFileContents]
  rcases hop : os.Open src w with ⟨w1, e | hd⟩
  · rw [hop] at ho; exact ho
  · rw [hop] at ho
    simp only
    exact (metaCalls_Close hd _).trans ((metaCalls_CopyReader (Reader.file hd) dst w1).trans ho)

/-! ### `CopyFile` -/

theorem stat_eq (p : String) (w : World) (r : Except Err FileInfo)
    (h : (os.Stat p w).2 = r) : os.Stat p w = (w.emit (.stat p), r) := by
  rw [← h]; rfl

theorem stat_emit_eq (p : String) (w : World) (c : Call) (r : Except Err FileInfo)
    (h : (os.Stat p w).2 = r) : os.Stat p (w.emit c) = ((w.emit c).emit (.stat p), r) := by
  rw [← h]; rfl

/-- C5: when `src` is a regular file and `dst` exists, is a regular file and is
the same entry as `src`, `CopyFile` returns `nil`, leaves the filesystem as it
was, and issues exactly two calls, the `stat` of `src` and the `stat` of `dst`:
no link, no open, no write, no `chtimes`, no `chmod`. -/
theorem C5_CopyFile_same_file_is_noop (src dst : String) (w : World) (sfi dfi : FileInfo)
    (hs : (os.Stat src w).2 = .ok sfi) (hsr : FileMode.IsRegular sfi.mode = true)
    (hd : (os.Stat dst w).2 = .ok dfi) (hdr : FileMode.IsRegular dfi.mode = true)
    (hsame : os.SameFile sfi dfi = true) :
    CopyFile src dst w = ({ fs := w.fs, log := w.log ++ [.stat src, .stat dst] }, none) := by
  simp only [CopyFile, stat_eq src w _ hs, stat_emit_eq dst w _ _ hd]
  simp [hsr, hdr, hsame, World.emit]

/-- C5 at a concrete input: copying `src/f` onto its hard link `src/h`. -/
theorem C5_CopyFile_same_file_witness :
    CopyFile "src/f" "src/h" demoWorld =
      ({ fs := demoWorld.fs, log := demoWorld.log ++ [.stat "src/f", .stat "src/h"] }, none) :=
  C5_CopyFile_same_file_is_noop "src/f" "src/h" demoWorld
    { name := "f", mode := 0o644, modTime := 5, ino := 2 }
    { name := "h", mode := 0o644, modTime := 5, ino := 2 }
    (by decide) (by decide) (by decide) (by decide) (by decide)

/-! ### What the content copy and `SetInfo` leave in the filesystem -/

theorem Stat_ok (p : String) (w : World) (fi : FileInfo) (h : (os.Stat p w).2 = .ok fi) :
    ∃ nd, w.fs.resolve p = Lookup.found fi.ino nd ∧ nd.mode = fi.mode ∧
      nd.modTime = fi.modTime := by
  simp only [os.Stat, os.statAt] at h
  cases hf : w.fs.faults (Call.stat p) with
  | some e => simp [hf] at h
  | none =>
    simp only [hf] at h
    cases hr : w.fs.resolve p with
    | absent => simp [hr] at h
    | fails e => simp [hr] at h
    | found i nd =>
      simp only [hr, Except.ok.injEq] at h
      refine ⟨nd, ?_, ?_, ?_⟩
      · rw [← h]
      · rw [← h]
      · rw [← h]

theorem Link_fail_fs (a b : String) (w w' : World) (e : Err)
    (h : os.Link a b w = (w', some e)) : w'.fs = w.fs := by
  simp only [os.Link] at h
  cases hf : w.fs.faults (Call.link a b) with
  | some e1 => simp only [hf, Prod.mk.injEq] at h; rw [← h.1]; rfl
  | none =>
    simp only [hf] at h
    cases hr : w.fs.resolve a with
    | absent => simp only [hr, Prod.mk.injEq] at h; rw [← h.1]; rfl
    | fails e1 => simp only [hr, Prod.mk.injEq] at h; rw [← h.1]; rfl
    | found i nd =>
      simp only [hr] at h
      by_cases hd : FileMode.IsDir nd.mode = true
      · simp only [hd, if_true, Prod.mk.injEq] at h; rw [← h.1]; rfl
      · simp only [hd, Bool.false_eq_true, if_false] at h
        cases hb : w.fs.resolve b with
        | absent => simp [hb] at h
        | fails e1 => simp only [hb, Prod.mk.injEq] at h; rw [← h.1]; rfl
        | found j x => simp only [hb, Prod.mk.injEq] at h; rw [← h.1]; rfl

theorem Open_ok (p : String) (w w' : World) (h : Nat) (ho : os.Open p w = (w', .ok h)) :
    w'.fs = w.fs ∧ ∃ nd, w.fs.resolve p = Lookup.found h nd := by
  simp only [os.Open] at ho
  cases hf : w.fs.faults (Call.openRead p) with
  | some e => simp [hf] at ho
  | none =>
    simp only [hf] at ho
    cases hr : w.fs.resolve p with
    | absent => simp [hr] at ho
    | fails e => simp [hr] at ho
    | found i nd =>
      simp only [hr, Prod.mk.injEq, Except.ok.injEq] at ho
      refine ⟨?_, nd, ?_⟩
      · rw [← ho.1]; rfl
      · rw [← ho.2]

/-- The destination just after a successful `os.Create`: it names an empty
file whose inode is not the source's, and the source's inode is as it was. -/
theorem Create_ok (dst : String) (w w' : World) (j i : Nat) (nds : Inode)
    (hc : os.Create dst w = (w', .ok j))
    (hfs : w.fs.resolve dst = Lookup.absent ∨
      ∃ j0 nd0, w.fs.resolve dst = Lookup.found j0 nd0 ∧ j0 ≠ i ∧
        FileMode.IsRegular nd0.mode = true)
    (hi : w.fs.inodes[i]? = some nds) :
    ∃ nd, w'.fs.resolve dst = Lookup.found j nd ∧ nd.data = [] ∧ nd.mode &&& ModeType = 0 ∧
      j ≠ i ∧ w'.fs.inodes[i]? = some nds := by
  have hlt : i < w.fs.inodes.length := by
    by_contra hge
    rw [List.getElem?_eq_none (by omega)] at hi
    simp at hi
  simp only [os.Create, os.OpenFile] at hc
  cases hf : w.fs.faults (Call.openWrite dst 0o666) with
  | some e => simp [hf] at hc
  | none =>
    simp only [hf] at hc
    rcases hfs with habs | ⟨j0, nd0, hfound, hne, hreg⟩
    · simp only [habs] at hc
      have hflag : (os.O_RDWR ||| os.O_CREATE ||| os.O_TRUNC) &&& os.O_CREATE ≠ 0 := by decide
      simp only [beq_iff_eq, hflag, if_false, Prod.mk.injEq, Except.ok.injEq] at hc
      let nd : Inode :=
        { mode := w.fs.created 0o666, modTime := w.fs.clock, atime := w.fs.clock, data := [] }
      refine ⟨nd, ?_, rfl, created_type w.fs 0o666, ?_, ?_⟩
      · rw [← hc.1, ← hc.2]
        exact resolve_addNode w.fs dst _ habs
      · rw [← hc.2]; omega
      · rw [← hc.1]
        exact inodes_addNode_of_some w.fs dst _ nds i hi
    · simp only [hfound] at hc
      have ht := regular_type _ hreg
      have hdir := type_zero_not_dir _ ht
      have hflag : ((os.O_RDWR ||| os.O_CREATE ||| os.O_TRUNC) &&& os.O_TRUNC != 0) = true := by
        decide
      simp only [hdir, Bool.false_eq_true, if_false, hflag, if_true, Prod.mk.injEq,
        Except.ok.injEq] at hc
      refine ⟨{ nd0 with data := [], modTime := w.fs.clock }, ?_, rfl, ht, ?_, ?_⟩
      · rw [← hc.1, ← hc.2]
        exact resolve_setInode_found w.fs j0 nd0
          { nd0 with data := [], modTime := w.fs.clock } rfl dst hfound
      · rw [← hc.2]; exact hne
      · rw [← hc.1]
        show (w.fs.setInode j0 _).inodes[i]? = some nds
        rw [inodes_setInode_ne w.fs j0 i _ (fun h => hne h.symm)]
        exact hi

theorem Read_ok (h : Nat) (w w' : World) (data : List Nat)
    (hr : os.File.Read h w = (w', data, none)) :
    w'.fs = w.fs ∧ ∃ nd, w.fs.inodes[h]? = some nd ∧ data = nd.data := by
  simp only [os.File.Read] at hr
  cases hf : w.fs.faults (Call.read h) with
  | some e => simp [hf] at hr
  | none =>
    simp only [hf] at hr
    cases hi : w.fs.inodes[h]? with
    | none => simp [hi] at hr
    | some nd =>
      simp only [hi] at hr
      by_cases hd : FileMode.IsDir nd.mode = true
      · simp [hd] at hr
      · simp only [hd, Bool.false_eq_true, if_false, Prod.mk.injEq, and_true] at hr
        refine ⟨?_, nd, rfl, ?_⟩
        · rw [← hr.1]; rfl
        · exact hr.2.symm

theorem Write_ok (j : Nat) (data : List Nat) (w w' : World)
    (hw : os.File.Write j data w = (w', none)) :
    ∃ nd, w.fs.inodes[j]? = some nd ∧
      w'.fs = w.fs.setInode j { nd with data := nd.data ++ data, modTime := w.fs.clock } := by
  simp only [os.File.Write] at hw
  cases hf : w.fs.faults (Call.write j data) with
  | some e => simp [hf] at hw
  | none =>
    simp only [hf] at hw
    cases hi : w.fs.inodes[j]? with
    | none => simp [hi] at hw
    | some nd =>
      simp only [hi, Prod.mk.injEq, and_true] at hw
      exact ⟨nd, rfl, by rw [← hw]⟩

/-- A successful `io.Copy` from the open source file into the open, empty
destination leaves the source's bytes in the destination. -/
theorem Copy_file_ok (dst : String) (i j : Nat) (w w' : World) (nds nd : Inode)
    (hc : io.Copy j (Reader.file i) w = (w', none))
    (hi : w.fs.inodes[i]? = some nds)
    (hd : w.fs.resolve dst = Lookup.found j nd) (hempty : nd.data = []) :
    ∃ nd', w'.fs.resolve dst = Lookup.found j nd' ∧ nd'.data = nds.data ∧
      nd'.mode = nd.mode := by
  simp only [io.Copy, io.readAll] at hc
  rcases hrd : os.File.Read i w with ⟨w1, data, rerr⟩
  rw [hrd] at hc
  simp only at hc
  by_cases hdata : data = []
  · simp only [hdata, if_true, Prod.mk.injEq] at hc
    subst hdata
    rw [hc.2] at hrd
    obtain ⟨hfs, nd1, hnd1, hd1⟩ := Read_ok i w w1 [] hrd
    rw [hi] at hnd1
    have : nds = nd1 := Option.some.inj hnd1
    subst this
    refine ⟨nd, ?_, ?_, rfl⟩
    · rw [← hc.1, hfs]; exact hd
    · rw [hempty]; exact hd1
  · simp only [hdata, if_false] at hc
    rcases hwr : os.File.Write j data w1 with ⟨w2, _ | e⟩
    · rw [hwr] at hc
      simp only [Prod.mk.injEq] at hc
      rw [hc.2] at hrd
      obtain ⟨hfs, nd1, hnd1, hd1⟩ := Read_ok i w w1 data hrd
      rw [hi] at hnd1
      have : nds = nd1 := Option.some.inj hnd1
      subst this
      obtain ⟨nd2, hnd2, hfs2⟩ := Write_ok j data w1 w2 hwr
      rw [hfs] at hnd2 hfs2
      have hj := resolve_inode w.fs dst j nd hd
      rw [hj] at hnd2
      have : nd = nd2 := Option.some.inj hnd2
      subst this
      refine ⟨{ nd with data := nd.data ++ data, modTime := w.fs.clock }, ?_, ?_, rfl⟩
      · rw [← hc.1, hfs2]
        exact resolve_setInode_found w.fs j nd
          { nd with data := nd.data ++ data, modTime := w.fs.clock } rfl dst hd
      · simp [hempty, hd1]
    · rw [hwr] at hc
      simp at hc

theorem CopyReader_ok (rd : Reader) (dst : String) (w w' : World)
    (h : CopyReader rd dst w = (w', none)) :
    ∃ w1 out w2, os.Create dst w = (w1, .ok out) ∧ io.Copy out rd w1 = (w2, none) ∧
      w'.fs = w2.fs := by
  simp only [CopyReader] at h
  rcases hcr : os.Create dst w with ⟨w1, e | out⟩
  · rw [hcr] at h; simp at h
  · rw [hcr] at h
    simp only at h
    rcases hio : io.Copy out rd w1 with ⟨w2, _ | e2⟩
    · rw [hio] at h
      simp only [Prod.mk.injEq] at h
      exact ⟨w1, out, w2, rfl, hio, by rw [← h.1]; rfl⟩
    · rw [hio] at h
      simp at h

/-- A successful `CopyFileContents` leaves the source's bytes in the
destination, a file whose inode is not the source's. -/
theorem CopyFileContents_ok (src dst : String) (w w' : World) (i : Nat) (nds : Inode)
    (h : CopyFileContents src dst w = (w', none))
    (hsrc : w.fs.resolve src = Lookup.found i nds)
    (hfs : w.fs.resolve dst = Lookup.absent ∨
      ∃ j0 nd0, w.fs.resolve dst = Lookup.found j0 nd0 ∧ j0 ≠ i ∧
        FileMode.IsRegular nd0.mode = true) :
    ∃ j nd, w'.fs.resolve dst = Lookup.found j nd ∧ nd.data = nds.data ∧
      nd.mode &&& ModeType = 0 := by
  simp only [CopyFileContents] at h
  rcases hop : os.Open src w with ⟨w1, e | hd⟩
  · rw [hop] at h; simp at h
  · rw [hop] at h
    simp only [Prod.mk.injEq] at h
    obtain ⟨hfs1, nd1, hr1⟩ := Open_ok src w w1 hd hop
    rw [hsrc] at hr1
    simp only [Lookup.found.injEq] at hr1
    have hhd : hd = i := hr1.1.symm
    subst hhd
    have hcr : CopyReader (Reader.file hd) dst w1
        = ((CopyReader (Reader.file hd) dst w1).1, none) := by
      rw [← h.2]
    obtain ⟨w2, out, w3, hcreate, hcopy, hfs3⟩ := CopyReader_ok _ dst w1 _ hcr
    have hi : w1.fs.inodes[hd]? = some nds := by
      rw [hfs1]; exact resolve_inode w.fs src hd nds hsrc
    rw [← hfs1] at hfs
    obtain ⟨nd, hres, hempty, htype, hne, hi2⟩ := Create_ok dst w1 w2 out hd nds hcreate hfs hi
    obtain ⟨nd', hres', hdata, hmode⟩ := Copy_file_ok dst hd out w2 w3 nds nd hcopy hi2
      hres hempty
    refine ⟨out, nd', ?_, hdata, ?_⟩
    · rw [← h.1]
      show (CopyReader (Reader.file hd) dst w1).1.fs.resolve dst = _
      rw [hfs3]; exact hres'
    · rw [hmode]; exact htype

theorem Chtimes_ok (p : String) (a m : Nat) (w w' : World) (j : Nat) (nd : Inode)
    (h : os.Chtimes p a m w = (w', none)) (hr : w.fs.resolve p = Lookup.found j nd) :
    w'.fs.resolve p = Lookup.found j { nd with atime := a, modTime := m } := by
  simp only [os.Chtimes] at h
  cases hf : w.fs.faults (Call.chtimes p a m) with
  | some e => simp [hf] at h
  | none =>
    simp only [hf, hr, Prod.mk.injEq, and_true] at h
    rw [← h]
    exact resolve_setInode_found w.fs j nd { nd with atime := a, modTime := m } rfl p hr

theorem Chmod_ok (p : String) (mode : Nat) (w w' : World) (j : Nat) (nd : Inode)
    (h : os.Chmod p mode w = (w', none)) (hr : w.fs.resolve p = Lookup.found j nd)
    (ht : nd.mode &&& ModeType = 0) :
    w'.fs.resolve p = Lookup.found j { nd with mode := syscallMode mode } := by
  simp only [os.Chmod] at h
  cases hf : w.fs.faults (Call.chmod p mode) with
  | some e => simp [hf] at h
  | none =>
    simp only [hf, hr, Prod.mk.injEq, and_true] at h
    rw [← h]
    have hm : (nd.mode &&& ModeType) ||| syscallMode mode = syscallMode mode := by
      rw [ht, Nat.zero_or]
    rw [hm]
    have hd : FileMode.IsDir ({ nd with mode := syscallMode mode } : Inode).mode
        = FileMode.IsDir nd.mode := by
      rw [type_zero_not_dir _ ht, type_zero_not_dir _ (syscallMode_type mode)]
    exact resolve_setInode_found w.fs j nd { nd with mode := syscallMode mode } hd p hr

/-- A successful `SetInfo` on a file leaves it with the descriptor's
modification time and the descriptor's permission, setuid, setgid and sticky
bits; its content is untouched. -/
theorem SetInfo_ok (p : String) (info : FileInfo) (w w' : World) (j : Nat) (nd : Inode)
    (h : SetInfo p info w = (w', none)) (hr : w.fs.resolve p = Lookup.found j nd)
    (ht : nd.mode &&& ModeType = 0) :
    ∃ nd', w'.fs.resolve p = Lookup.found j nd' ∧ nd'.data = nd.data ∧
      nd'.modTime = info.modTime ∧ nd'.mode = syscallMode info.mode := by
  simp only [SetInfo] at h
  rcases hc : os.Chtimes p w.fs.clock info.modTime w with ⟨w1, _ | e⟩
  · rw [hc] at h
    simp only at h
    have h1 := Chtimes_ok p _ _ w w1 j nd hc hr
    have h2 := Chmod_ok p info.mode w1 w' j _ h h1 ht
    exact ⟨_, h2, rfl, rfl, rfl⟩
  · rw [hc] at h
    simp at h

theorem checkDirs_addName (fs : FS) (key : String) (i : Nat)
    (habs : fs.entry key = none) (ds : List String) (hc : fs.checkDirs ds = none) :
    ({ fs with names := (key, i) :: fs.names } : FS).checkDirs ds = none := by
  induction ds with
  | nil => rfl
  | cons d ds ih =>
    simp only [FS.checkDirs] at hc ⊢
    cases he : fs.entry d with
    | none => simp [he] at hc
    | some r =>
      rcases r with ⟨j, x⟩
      simp only [he] at hc
      have hne : d ≠ key := by
        intro hh
        rw [hh, habs] at he
        simp at he
      have hb : (d == key) = false := by simpa using hne
      have hnew : ({ fs with names := (key, i) :: fs.names } : FS).entry d = some (j, x) := by
        simp only [FS.entry, List.lookup, hb]
        exact he
      rw [hnew]
      simp only
      by_cases hdir : FileMode.IsDir x.mode = true
      · simp only [hdir, if_true] at hc ⊢
        exact ih hc
      · simp [hdir] at hc

/-- A successful `os.Link` leaves the new name on the inode of the old one. -/
theorem Link_ok (a b : String) (w w' : World) (i : Nat) (nd : Inode)
    (h : os.Link a b w = (w', none)) (ha : w.fs.resolve a = Lookup.found i nd) :
    w'.fs.resolve b = Lookup.found i nd := by
  simp only [os.Link] at h
  cases hf : w.fs.faults (Call.link a b) with
  | some e => simp [hf] at h
  | none =>
    simp only [hf, ha] at h
    by_cases hd : FileMode.IsDir nd.mode = true
    · simp [hd] at h
    · simp only [hd, Bool.false_eq_true, if_false] at h
      cases hb : w.fs.resolve b with
      | fails e => simp [hb] at h
      | found j x => simp [hb] at h
      | absent =>
        simp only [hb, Prod.mk.injEq, and_true] at h
        obtain ⟨hp, hc, he⟩ := resolve_absent w.fs b hb
        rw [← h]
        have hi := resolve_inode w.fs a i nd ha
        simp only [FS.resolve, hp, if_false, World.emit,
          checkDirs_addName w.fs (filepath.Clean b) i he _ hc]
        simp [FS.entry, List.lookup, hi]

theorem CopyFile_eq_linkOrCopy (src dst : String) (w : World) (sfi : FileInfo)
    (hs : (os.Stat src w).2 = .ok sfi) (hsr : FileMode.IsRegular sfi.mode = true)
    (hd : (∃ e, (os.Stat dst w).2 = .error e ∧ os.IsNotExist e = true) ∨
          (∃ dfi, (os.Stat dst w).2 = .ok dfi ∧ FileMode.IsRegular dfi.mode = true ∧
            os.SameFile sfi dfi = false)) :
    CopyFile src dst w =
      CopyFile.linkOrCopy src dst sfi ((w.emit (.stat src)).emit (.stat dst)) := by
  rcases hd with ⟨e, he, hne⟩ | ⟨dfi, hdfi, hdr, hns⟩
  · simp only [CopyFile, stat_eq src w _ hs, stat_emit_eq dst w _ _ he]
    simp only [hsr, hne, Bool.not_true, Bool.false_eq_true, if_false]
  · simp only [CopyFile, stat_eq src w _ hs, stat_emit_eq dst w _ _ hdfi]
    simp only [hsr, hdr, hns, Bool.not_true, Bool.false_eq_true, if_false]

/-- C6, as amended.  For a regular source `src`.  When the stat of `dst` fails
with an error other than "does not exist", `CopyFile` returns that error and
calls nothing more.  When the stat of `dst` reports that it does not exist, or
`dst` is a regular file other than `src`: the third call, after the two stats,
is the hard link.  If it succeeds, the result is `nil`, nothing more is called
and `dst` names the inode of `src`.  If it fails, with whatever error,
`CopyFileContents` runs; its error, if any, is the result; otherwise the
destination (absent before, or a regular file on another inode) holds the
bytes of the source, `SetInfo` runs with the source's descriptor and its
result is the result, and when that is `nil` the destination still holds the
bytes of the source, has the source descriptor's modification time, and has
its permission, setuid, setgid and sticky bits as its mode. -/
theorem C6_CopyFile_link_then_copy (src dst : String) (w : World) (sfi : FileInfo)
    (hs : (os.Stat src w).2 = .ok sfi) (hsr : FileMode.IsRegular sfi.mode = true) :
    (∀ e, (os.Stat dst w).2 = .error e → os.IsNotExist e = false →
      CopyFile src dst w = ((w.emit (.stat src)).emit (.stat dst), some e)) ∧
    (((∃ e, (os.Stat dst w).2 = .error e ∧ os.IsNotExist e = true) ∨
      (∃ dfi, (os.Stat dst w).2 = .ok dfi ∧ FileMode.IsRegular dfi.mode = true ∧
        os.SameFile sfi dfi = false)) →
      (os.Link src dst ((w.emit (.stat src)).emit (.stat dst))).1.log
          = w.log ++ [.stat src, .stat dst, .link src dst] ∧
      (∀ w3, os.Link src dst ((w.emit (.stat src)).emit (.stat dst)) = (w3, none) →
        CopyFile src dst w = (w3, none) ∧
        ∃ nds, w.fs.resolve src = Lookup.found sfi.ino nds ∧
          w3.fs.resolve dst = Lookup.found sfi.ino nds) ∧
      (∀ w3 e w4 e', os.Link src dst ((w.emit (.stat src)).emit (.stat dst)) = (w3, some e) →
        CopyFileContents src dst w3 = (w4, some e') →
        CopyFile src dst w = (w4, some e')) ∧
      (∀ w3 e w4, os.Link src dst ((w.emit (.stat src)).emit (.stat dst)) = (w3, some e) →
        CopyFileContents src dst w3 = (w4, none) →
        CopyFile src dst w = SetInfo dst sfi w4) ∧
      (∀ w3 e w4,
        (w.fs.resolve dst = Lookup.absent ∨
          ∃ j0 nd0, w.fs.resolve dst = Lookup.found j0 nd0 ∧ j0 ≠ sfi.ino ∧
            FileMode.IsRegular nd0.mode = true) →
        os.Link src dst ((w.emit (.stat src)).emit (.stat dst)) = (w3, some e) →
        CopyFileContents src dst w3 = (w4, none) →
        ∃ nds j nd, w.fs.resolve src = Lookup.found sfi.ino nds ∧
          w4.fs.resolve dst = Lookup.found j nd ∧ nd.data = nds.data) ∧
      (∀ w3 e w4 w5,
        (w.fs.resolve dst = Lookup.absent ∨
          ∃ j0 nd0, w.fs.resolve dst = Lookup.found j0 nd0 ∧ j0 ≠ sfi.ino ∧
            FileMode.IsRegular nd0.mode = true) →
        os.Link src dst ((w.emit (.stat src)).emit (.stat dst)) = (w3, some e) →
        CopyFileContents src dst w3 = (w4, none) →
        SetInfo dst sfi w4 = (w5, none) →
        CopyFile src dst w = (w5, none) ∧
        ∃ nds j nd, w.fs.resolve src = Lookup.found sfi.ino nds ∧
          w5.fs.resolve dst = Lookup.found j nd ∧ nd.data = nds.data ∧
          nd.modTime = sfi.modTime ∧ nd.mode = syscallMode sfi.mode)) := by
  obtain ⟨nds, hsrc, -, -⟩ := Stat_ok src w sfi hs
  refine ⟨?_, ?_⟩
  · intro e he hne
    simp only [CopyFile, stat_eq src w _ hs, stat_emit_eq dst w _ _ he]
    simp only [hsr, hne, Bool.not_true, Bool.not_false, Bool.false_eq_true, if_false, if_true]
  · intro hd
    have heq := CopyFile_eq_linkOrCopy src dst w sfi hs hsr hd
    refine ⟨?_, ?_, ?_, ?_, ?_, ?_⟩
    · rw [Link_log]; simp [World.emit]
    · intro w3 hl
      refine ⟨?_, nds, hsrc, ?_⟩
      · rw [heq]; simp only [CopyFile.linkOrCopy, hl]
      · exact Link_ok src dst ((w.emit (.stat src)).emit (.stat dst)) w3 sfi.ino nds hl hsrc
    · intro w3 e w4 e' hl hc
      rw [heq]; simp only [CopyFile.linkOrCopy, hl, hc]
    · intro w3 e w4 hl hc
      rw [heq]; simp only [CopyFile.linkOrCopy, hl, hc]
    · intro w3 e w4 hfs hl hc
      have hfs3 : w3.fs = w.fs :=
        Link_fail_fs src dst ((w.emit (.stat src)).emit (.stat dst)) w3 e hl
      have hsrc3 : w3.fs.resolve src = Lookup.found sfi.ino nds := by rw [hfs3]; exact hsrc
      rw [← hfs3] at hfs
      obtain ⟨j, nd, hres, hdata, -⟩ :=
        CopyFileContents_ok src dst w3 w4 sfi.ino nds hc hsrc3 hfs
      exact ⟨nds, j, nd, hsrc, hres, hdata⟩
    · intro w3 e w4 w5 hfs hl hc hsi
      refine ⟨?_, ?_⟩
      · rw [heq]; simp only [CopyFile.linkOrCopy, hl, hc, hsi]
      · have hfs3 : w3.fs = w.fs :=
          Link_fail_fs src dst ((w.emit (.stat src)).emit (.stat dst)) w3 e hl
        have hsrc3 : w3.fs.resolve src = Lookup.found sfi.ino nds := by rw [hfs3]; exact hsrc
        rw [← hfs3] at hfs
        obtain ⟨j, nd, hres, hdata, htype⟩ :=
          CopyFileContents_ok src dst w3 w4 sfi.ino nds hc hsrc3 hfs
        obtain ⟨nd', hres', hdata', hmt, hmode⟩ := SetInfo_ok dst sfi w4 w5 j nd hsi hres htype
        exact ⟨nds, j, nd', hsrc, hres', hdata'.trans hdata, hmt, hmode⟩

/-- C6 at two concrete inputs.  `src/f` to the absent `out/f2`: the link
succeeds, nothing else is called, and `out/f2` names the inode of `src/f`.
`src/f` to the existing file `src/d/g`: the link fails, the content is copied
and `SetInfo` follows; `src/d/g` then holds the bytes `1 2 3`, the
modification time 5 and the mode `0644` of `src/f`. -/
theorem C6_CopyFile_link_then_copy_witness :
    (CopyFile "src/f" "out/f2" demoWorld).2 = none ∧
    (∃ nds, demoFS.resolve "src/f" = Lookup.found 2 nds ∧
      (CopyFile "src/f" "out/f2" demoWorld).1.fs.resolve "out/f2" = Lookup.found 2 nds) ∧
    (CopyFile "src/f" "out/f2" demoWorld).1.log =
      [.stat "src/f", .stat "out/f2", .link "src/f" "out/f2"] ∧
    (CopyFile "src/f" "src/d/g" demoWorld).2 = none ∧
    (∃ nds j nd, demoFS.resolve "src/f" = Lookup.found 2 nds ∧
      (CopyFile "src/f" "src/d/g" demoWorld).1.fs.resolve "src/d/g" = Lookup.found j nd ∧
      nd.data = nds.data ∧ nd.modTime = 5 ∧ nd.mode = syscallMode 0o644) ∧
    (CopyFile "src/f" "src/d/g" demoWorld).1.fs.resolve "src/d/g" =
      Lookup.found 4 { mode := 0o644, modTime := 5, atime := 100, data := [1, 2, 3] } ∧
    (CopyFile "src/f" "src/d/g" demoWorld).1.log =
      [.stat "src/f", .stat "src/d/g", .link "src/f" "src/d/g", .openRead "src/f",
       .openWrite "src/d/g" 0o666, .read 2, .write 4 [1, 2, 3], .sync 4, .close 4,
       .close 2, .chtimes "src/d/g" 100 5, .chmod "src/d/g" 0o644] := by
  have h1 := ((C6_CopyFile_link_then_copy "src/f" "out/f2" demoWorld
    { name := "f", mode := 0o644, modTime := 5, ino := 2 } (by decide) (by decide)).2
    (Or.inl ⟨Err.sys "stat" "out/f2" .ENOENT, by decide, by decide⟩)).2.1 _ rfl
  have h2 := ((C6_CopyFile_link_then_copy "src/f" "src/d/g" demoWorld
    { name := "f", mode := 0o644, modTime := 5, ino := 2 } (by decide) (by decide)).2
    (Or.inr ⟨{ name := "g", mode := 0o600, modTime := 7, ino := 4 }, by decide, by decide,
      by decide⟩)).2.2.2.2.2 _ _ _ _
    (Or.inr ⟨4, { mode := 0o600, modTime := 7, atime := 7, data := [9] }, by decide,
      by decide, by decide⟩) rfl rfl rfl
  refine ⟨?_, ?_, by decide, ?_, ?_, by decide, by decide⟩
  · rw [h1.1]
  · obtain ⟨nds, ha, hb⟩ := h1.2
    exact ⟨nds, ha, by rw [h1.1]; exact hb⟩
  · rw [h2.1]
  · obtain ⟨nds, j, nd, ha, hb, hc, hd, he⟩ := h2.2
    exact ⟨nds, j, nd, ha, by rw [h2.1]; exact hb, hc, hd, he⟩

/-- C6 as stated fails: `src/f/x` is absent (`src/f` is a regular file, nothing
can exist below it), and the stat of it fails with `ENOTDIR`, which is not
"does not exist": `CopyFile` returns that error after the two stats and never
attempts the hard link. -/
theorem C6_CopyFile_link_then_copy_counterexample :
    (os.Stat "src/h" demoWorld).2 =
      .ok { name := "h", mode := 0o644, modTime := 5, ino := 2 } ∧
    demoFS.resolve "src/f/x" = Lookup.fails Errno.ENOTDIR ∧
    observe (some (CopyFile "src/h" "src/f/x" demoWorld)) =
      some (demoFS.names, demoFS.inodes, [.stat "src/h", .stat "src/f/x"],
            some (Err.sys "stat" "src/f/x" .ENOTDIR)) := by
  decide

/-- C7, as amended.  When `CopyReader` has created the destination and the
byte copy has succeeded: if the sync succeeds and the close fails, the result
is the close error; if the sync fails, the result is the sync error, whatever
the close does; and a failing close never leaves the result `nil`. -/
theorem C7_CopyReader_close_error (rd : Reader) (dst : String) (w w1 w2 : World) (out : Nat)
    (hcreate : os.Create dst w = (w1, .ok out))
    (hcopy : io.Copy out rd w1 = (w2, none)) :
    (∀ e, (os.File.Sync out w2).2 = none →
      (os.File.Close out (os.File.Sync out w2).1).2 = some e →
      (CopyReader rd dst w).2 = some e) ∧
    (∀ es, (os.File.Sync out w2).2 = some es → (CopyReader rd dst w).2 = some es) ∧
    (∀ e, (os.File.Close out (os.File.Sync out w2).1).2 = some e →
      (CopyReader rd dst w).2 ≠ none) := by
  have hrun : CopyReader rd dst w =
      ((os.File.Close out (os.File.Sync out w2).1).1,
        if (os.File.Sync out w2).2 = none then (os.File.Close out (os.File.Sync out w2).1).2
        else (os.File.Sync out w2).2) := by
    simp only [CopyReader, hcreate, hcopy]
  refine ⟨?_, ?_, ?_⟩
  · intro e hs hc
    rw [hrun]
    simp [hs, hc]
  · intro es hs
    rw [hrun]
    simp [hs]
  · intro e hc
    rw [hrun]
    cases hs : (os.File.Sync out w2).2 with
    | none => simp [hc]
    | some es => simp

/-- C7 at a concrete input: on a filesystem whose only failure is the close,
`CopyReader` returns the close error. -/
theorem C7_CopyReader_witness :
    (CopyReader (bytes.NewBuffer [1, 2]) "out/a.txt" closeFailsWorld).2 =
      some (Err.sys "close" "out/a.txt" .ENOSPC) :=
  (C7_CopyReader_close_error (bytes.NewBuffer [1, 2]) "out/a.txt" closeFailsWorld _ _ 10
    rfl rfl).1 _ rfl rfl

/-- C7 as stated fails: on a full disk the destination is created and the byte
copy succeeds, the sync fails and the close fails; `CopyReader` returns the
sync error, not the close error. -/
theorem C7_CopyReader_counterexample :
    (os.Create "out/a.txt" fullDiskWorld).2 = .ok 10 ∧
    (io.Copy 10 (bytes.NewBuffer [1, 2]) (os.Create "out/a.txt" fullDiskWorld).1).2 = none ∧
    fullDiskWorld.fs.faults (.close 10) = some (Err.sys "close" "out/a.txt" .ENOSPC) ∧
    (observe (some (CopyReader (bytes.NewBuffer [1, 2]) "out/a.txt" fullDiskWorld))).map
        (fun o => (o.2.2.1, o.2.2.2)) =
      some ([.openWrite "out/a.txt" 0o666, .write 10 [1, 2], .sync 10, .close 10],
            some (Err.sys "sync" "out/a.txt" .ENOSPC)) := by
  decide

/-- C8: the code drops the close error.  The deferred function of `CreateFile`
returns the error that stood before the close (or the sync's), never the
close's: its result does not depend on what the close returns.  On a
filesystem whose only failure is the close, `CreateFile` writes, closes, and
returns `nil`. -/
theorem C8_CreateFile_drops_close_error :
    (∀ (f : Nat) (opt : WriteMode) (err : Option Err) (w : World),
      (CreateFile.deferred f opt err w).2 =
        if err = none && WriteMode.IsSync opt then (os.File.Sync f w).2 else err) ∧
    closeFailsWorld.fs.faults (.close 10) = some (Err.sys "close" "out/a.txt" .ENOSPC) ∧
    (observe (some (CreateFile "out/a.txt" (bytes.NewBuffer [1, 2])
        { name := "a.txt", mode := 0o644, modTime := 50, ino := 0 } 0 closeFailsWorld))).map
        (fun o => (o.2.2.1, o.2.2.2)) =
      some ([.stat "out", .openWrite "out/a.txt" 0o666, .write 10 [1, 2], .close 10], none) := by
  refine ⟨?_, ?_, ?_⟩
  · intro f opt err w
    simp only [CreateFile.deferred]
    split
    · simp
    · simp
  · decide
  · decide

/-! ### The metadata calls of `CopyTo` -/

theorem MkdirAll_log (p : String) (perm : Nat) (w : World) :
    (os.MkdirAll p perm w).1.log = w.log ++ [.mkdirAll p perm] := by
  simp only [os.MkdirAll]
  repeat' split
  all_goals rfl

theorem metaCalls_MkdirAll (p : String) (perm : Nat) (w : World) :
    (os.MkdirAll p perm w).1.metaCalls = w.metaCalls :=
  metaCalls_of_log _ _ _ (MkdirAll_log p perm w) rfl

theorem metaCalls_IsExistingDir (p : String) (w : World) :
    (path_helpers.IsExistingDir p w).1.metaCalls = w.metaCalls := by
  have h := metaCalls_Stat p w
  simp only [path_helpers.IsExistingDir]
  rcases hs : os.Stat p w with ⟨w1, e | fi⟩
  · rw [hs] at h; exact h
  · rw [hs] at h; exact h

theorem metaCalls_resolveModeFrom (ps : List String) :
    ∀ w : World, (path_helpers.resolveModeFrom ps w).1.metaCalls = w.metaCalls := by
  induction ps with
  | nil => intro w; rfl
  | cons p rest ih =>
    intro w
    have h := metaCalls_Stat p w
    simp only [path_helpers.resolveModeFrom]
    rcases hs : os.Stat p w with ⟨w1, e | fi⟩
    · rw [hs] at h
      simp only
      cases hne : os.IsNotExist e
      · simp only [Bool.false_eq_true, if_false]; exact h
      · simp only [if_true]; exact (ih w1).trans h
    · rw [hs] at h; exact h

theorem metaCalls_Check (d : Destation) (dir : String) (w : World) :
    (d.Check dir w).1.metaCalls = w.metaCalls := by
  simp only [Destation.Check]
  have h1 := metaCalls_IsExistingDir (filepath.Dir (filepath.Join dir d.Dest)) w
  rcases hx : path_helpers.IsExistingDir (filepath.Dir (filepath.Join dir d.Dest)) w
    with ⟨w1, _ | _⟩
  · rw [hx] at h1
    simp only
    have h2 := metaCalls_resolveModeFrom
      ((ancestors (filepath.Dir (filepath.Join dir d.Dest))).reverse ++
        [if (filepath.Dir (filepath.Join dir d.Dest)).data.head? = some '/' then "/" else "."])
      w1
    simp only [path_helpers.ResolveMode]
    rcases hr : path_helpers.resolveModeFrom
      ((ancestors (filepath.Dir (filepath.Join dir d.Dest))).reverse ++
        [if (filepath.Dir (filepath.Join dir d.Dest)).data.head? = some '/' then "/" else "."])
      w1 with ⟨w2, e | m⟩
    · rw [hr] at h2; exact h2.trans h1
    · rw [hr] at h2
      simp only
      have h3 := metaCalls_MkdirAll (filepath.Dir (filepath.Join dir d.Dest)) m w2
      rcases hm : os.MkdirAll (filepath.Dir (filepath.Join dir d.Dest)) m w2 with ⟨w3, _ | e⟩
      · rw [hm] at h3; exact h3.trans (h2.trans h1)
      · rw [hm] at h3; exact h3.trans (h2.trans h1)
  · rw [hx] at h1; exact h1

theorem metaCalls_CopyFile_empty (src : String) (w : World) :
    (CopyFile src "" w).1.metaCalls = w.metaCalls := by
  have hs := metaCalls_Stat src w
  simp only [CopyFile]
  rcases hst : os.Stat src w with ⟨w1, e | sfi⟩
  · rw [hst] at hs; exact hs
  · rw [hst] at hs
    simp only
    cases hreg : FileMode.IsRegular sfi.mode
    · simp only [Bool.not_false, if_true]; exact hs
    · simp only [Bool.not_true, Bool.false_eq_true, if_false]
      have hd := metaCalls_Stat "" w1
      have hlc : ∀ w2 : World, w2.metaCalls = w.metaCalls →
          (CopyFile.linkOrCopy src "" sfi w2).1.metaCalls = w.metaCalls := by
        intro w2 h2
        have hl := metaCalls_Link src "" w2
        have hle := Link_empty src w2
        simp only [CopyFile.linkOrCopy]
        rcases hlk : os.Link src "" w2 with ⟨w3, _ | e⟩
        · rw [hlk] at hle; exact absurd rfl hle
        · rw [hlk] at hl
          simp only
          have hc := metaCalls_CopyFileContents src "" w3
          have hce := CopyFileContents_empty src w3
          rcases hcf : CopyFileContents src "" w3 with ⟨w4, _ | e2⟩
          · rw [hcf] at hce; exact absurd rfl hce
          · rw [hcf] at hc; exact hc.trans (hl.trans h2)
      rcases hsd : os.Stat "" w1 with ⟨w2, e | dfi⟩
      · rw [hsd] at hd
        simp only
        cases hne : os.IsNotExist e
        · simp only [Bool.not_false, if_true]; exact hd.trans hs
        · simp only [Bool.not_true, Bool.false_eq_true, if_false]
          exact hlc w2 (hd.trans hs)
      · obtain ⟨e, he⟩ := Stat_empty w1
        rw [hsd] at he
        simp at he

theorem SrcData_CopyTo_metaCalls (s : SrcData) (dest : String) (w : World) :
    (s.CopyTo dest w).1.metaCalls = w.metaCalls := by
  have hp := Check_path s.toDestation dest w
  have hm := metaCalls_Check s.toDestation dest w
  simp only [SrcData.CopyTo]
  rcases hc : s.toDestation.Check dest w with ⟨w1, pth, _ | e⟩
  · rw [hc] at hp hm
    simp only at hp hm
    subst hp
    simp only [SrcData.copyAt, CopyBytes]
    have hf := CopyReader_empty (bytes.NewBuffer s.Data) w1
    have hr := metaCalls_CopyReader (bytes.NewBuffer s.Data) "" w1
    rcases hcr : CopyReader (bytes.NewBuffer s.Data) "" w1 with ⟨w2, _ | e2⟩
    · rw [hcr] at hf; exact absurd rfl hf
    · rw [hcr] at hr; exact hr.trans hm
  · rw [hc] at hm; exact hm

theorem SrcReader_CopyTo_metaCalls (s : SrcReader) (dest : String) (w : World) :
    (s.CopyTo dest w).1.metaCalls = w.metaCalls := by
  have hp := Check_path s.toDestation dest w
  have hm := metaCalls_Check s.toDestation dest w
  simp only [SrcReader.CopyTo]
  rcases hc : s.toDestation.Check dest w with ⟨w1, pth, _ | e⟩
  · rw [hc] at hp hm
    simp only at hp hm
    subst hp
    simp only [SrcReader.copyAt]
    have hf := CopyReader_empty s.Reader w1
    have hr := metaCalls_CopyReader s.Reader "" w1
    rcases hcr : CopyReader s.Reader "" w1 with ⟨w2, _ | e2⟩
    · rw [hcr] at hf; exact absurd rfl hf
    · rw [hcr] at hr; exact hr.trans hm
  · rw [hc] at hm; exact hm

theorem Src_CopyTo_metaCalls (s : Src) (dest : String) (w : World) :
    (s.CopyTo dest w).1.metaCalls = w.metaCalls := by
  have hp := Check_path s.toDestation dest w
  have hm := metaCalls_Check s.toDestation dest w
  simp only [Src.CopyTo]
  rcases hc : s.toDestation.Check dest w with ⟨w1, pth, _ | e⟩
  · rw [hc] at hp hm
    simp only at hp hm
    subst hp
    simp only [Src.copyAt]
    have hf := CopyFile_empty s.Src w1
    have hr := metaCalls_CopyFile_empty s.Src w1
    rcases hcr : CopyFile s.Src "" w1 with ⟨w2, _ | e2⟩
    · rw [hcr] at hf; exact absurd rfl hf
    · rw [hcr] at hr; exact hr.trans hm
  · rw [hc] at hm; exact hm

/-- C9: the code does not do what the claim says of a source with a
descriptor.  `SetInfo` is never applied: whatever the source (file, buffer or
stream), whether `Info` is present or not, and whatever the filesystem,
`CopyTo` returns an error and issues no `chtimes` and no `chmod`, because the
copy goes to the empty path `Destation.Check` returns and fails there.  For the
buffer source with a descriptor and the destination `a.txt` under the existing
directory `out`: the create of the empty path fails with `ENOENT`, the error
is wrapped with `Copy bytes`, nothing is written and the descriptor is not
propagated. -/
theorem C9_CopyTo_never_sets_info :
    (∀ (s : SrcData) (dest : String) (w : World),
      (s.CopyTo dest w).2 ≠ none ∧ (s.CopyTo dest w).1.metaCalls = w.metaCalls) ∧
    (∀ (s : SrcReader) (dest : String) (w : World),
      (s.CopyTo dest w).2 ≠ none ∧ (s.CopyTo dest w).1.metaCalls = w.metaCalls) ∧
    (∀ (s : Src) (dest : String) (w : World),
      (s.CopyTo dest w).2 ≠ none ∧ (s.CopyTo dest w).1.metaCalls = w.metaCalls) ∧
    demoBuffer.Info = some demoInfo ∧
    observe (some (demoBuffer.CopyTo "out" demoWorld)) =
      some (demoFS.names, demoFS.inodes, [.stat "out", .openWrite "" 0o666],
            some (Err.wrapped (Err.sys "open" "" .ENOENT) "Copy bytes")) ∧
    (demoBuffer.CopyTo "out" demoWorld).1.fs.resolve "out/a.txt" = Lookup.absent := by
  refine ⟨fun s dest w => ⟨SrcData_CopyTo_fails s dest w, SrcData_CopyTo_metaCalls s dest w⟩,
    fun s dest w => ⟨SrcReader_CopyTo_fails s dest w, SrcReader_CopyTo_metaCalls s dest w⟩,
    fun s dest w => ⟨Src_CopyTo_fails s dest w, Src_CopyTo_metaCalls s dest w⟩,
    rfl, by decide, by decide⟩

/-! ### The mode of an entry through the calls that follow an open -/

theorem modeOf_setInode (fs : FS) (i : Nat) (nd nd' : Inode)
    (h : fs.inodes[i]? = some nd) (hm : nd'.mode = nd.mode) (p : String) :
    (fs.setInode i nd').modeOf p = fs.modeOf p := by
  have hd : FileMode.IsDir nd'.mode = FileMode.IsDir nd.mode := by rw [hm]
  simp only [FS.modeOf, resolve_setInode fs i nd nd' h hd p]
  cases hr : fs.resolve p with
  | absent => rfl
  | fails e => rfl
  | found j x =>
    simp only
    by_cases hji : j = i
    · subst hji
      have hx := resolve_inode fs p j x hr
      rw [h] at hx
      have hx' : x = nd := (Option.some.inj hx).symm
      simp [hm, hx']
    · simp [hji]

theorem modeOf_Read (h : Nat) (w : World) (p : String) :
    (os.File.Read h w).1.fs.modeOf p = w.fs.modeOf p := by
  simp only [os.File.Read]
  repeat' split
  all_goals rfl

theorem modeOf_Write (h : Nat) (data : List Nat) (w : World) (p : String) :
    (os.File.Write h data w).1.fs.modeOf p = w.fs.modeOf p := by
  simp only [os.File.Write]
  split
  · rfl
  · split
    · rfl
    · rename_i nd hnd
      exact modeOf_setInode w.fs h nd
        { nd with data := nd.data ++ data, modTime := w.fs.clock } hnd rfl p

theorem modeOf_Chtimes (name : String) (a m : Nat) (w : World) (p : String) :
    (os.Chtimes name a m w).1.fs.modeOf p = w.fs.modeOf p := by
  simp only [os.Chtimes]
  split
  · rfl
  · split
    · rfl
    · rfl
    · rename_i i nd hr
      exact modeOf_setInode w.fs i nd { nd with atime := a, modTime := m }
        (resolve_inode _ _ _ _ hr) rfl p

theorem modeOf_Copy (out : Nat) (rd : Reader) (w : World) (p : String) :
    (io.Copy out rd w).1.fs.modeOf p = w.fs.modeOf p := by
  have hread : (io.readAll rd w).1.fs.modeOf p = w.fs.modeOf p := by
    cases rd with
    | file h => exact modeOf_Read h w p
    | mem d e => rfl
  simp only [io.Copy]
  by_cases hd : (io.readAll rd w).2.1 = []
  · simp only [hd, if_true]; exact hread
  · simp only [hd, if_false]
    have hw := modeOf_Write out (io.readAll rd w).2.1 (io.readAll rd w).1 p
    rcases hwr : os.File.Write out (io.readAll rd w).2.1 (io.readAll rd w).1 with ⟨w2, _ | e⟩
    · rw [hwr] at hw; exact hw.trans hread
    · rw [hwr] at hw; exact hw.trans hread

theorem deferred_fs (f : Nat) (opt : WriteMode) (err : Option Err) (w : World) :
    (CreateFile.deferred f opt err w).1.fs = w.fs := by
  simp only [CreateFile.deferred]
  split <;> rfl

theorem modeOf_OpenFile (name : String) (flag perm : Nat) (w w' : World) (h : Nat)
    (hopen : os.OpenFile name flag perm w = (w', .ok h)) :
    w'.fs.modeOf name =
      some (match w.fs.modeOf name with
            | some m => m
            | none => w.fs.created perm) := by
  simp only [os.OpenFile] at hopen
  cases hf : w.fs.faults (Call.openWrite name perm) with
  | some e => simp [hf] at hopen
  | none =>
    simp only [hf] at hopen
    cases hr : w.fs.resolve name with
    | fails e => simp [hr] at hopen
    | found i nd =>
      have hmode : w.fs.modeOf name = some nd.mode := by simp [FS.modeOf, hr]
      simp only [hr] at hopen
      by_cases hdir : FileMode.IsDir nd.mode = true
      · simp [hdir] at hopen
      · simp only [hdir, Bool.false_eq_true, if_false] at hopen
        by_cases ht : (flag &&& os.O_TRUNC != 0) = true
        · simp only [ht, if_true, Prod.mk.injEq, Except.ok.injEq] at hopen
          rw [← hopen.1, hmode]
          have := modeOf_setInode w.fs i nd { nd with data := [], modTime := w.fs.clock }
            (resolve_inode _ _ _ _ hr) rfl name
          simp only [World.emit]
          rw [this, hmode]
        · simp only [ht, Bool.false_eq_true, if_false, Prod.mk.injEq,
            Except.ok.injEq] at hopen
          rw [← hopen.1, hmode]
          simp only [World.emit]
          rw [hmode]
    | absent =>
      have hmode : w.fs.modeOf name = none := by simp [FS.modeOf, hr]
      simp only [hr] at hopen
      by_cases hc : (flag &&& os.O_CREATE == 0) = true
      · simp [hc] at hopen
      · simp only [hc, Bool.false_eq_true, if_false, Prod.mk.injEq,
          Except.ok.injEq] at hopen
        rw [← hopen.1, hmode]
        simp only [World.emit, FS.modeOf, resolve_addNode w.fs name _ hr]

theorem CreateFile_after_open (filename : String) (r : Reader) (info : FileInfo)
    (opt : WriteMode) (w w1 w2 : World) (f : Nat)
    (hdir : path_helpers.MkdirAllIfNotExists (filepath.Dir filename) w = (w1, none))
    (hopen : (if WriteMode.IsSetPerm opt then
                os.OpenFile filename (os.O_WRONLY ||| os.O_CREATE ||| os.O_TRUNC) info.mode w1
              else os.Create filename w1) = (w2, .ok f)) (p : String) :
    (CreateFile filename r info opt w).1.fs.modeOf p = w2.fs.modeOf p := by
  simp only [CreateFile, hdir, hopen]
  have hcp := modeOf_Copy f r w2 p
  rcases hio : io.Copy f r w2 with ⟨w3, _ | e⟩
  · rw [hio] at hcp
    simp only
    cases ht : WriteMode.IsSetTimes opt
    · simp only [Bool.false_eq_true, if_false]
      rw [deferred_fs]
      exact hcp
    · simp only [if_true]
      rw [deferred_fs, modeOf_Chtimes]
      exact hcp
  · rw [hio] at hcp
    simp only
    rw [deferred_fs]
    exact hcp

/-- C10, as amended.  When `CreateFile` has ensured the directory and opened
the destination: without `WO_SetPerm` the descriptor's mode plays no part (any
other mode gives the same run) and the open asks for `0666`; with it the open
asks for the descriptor's mode.  The mode asked for takes effect only on
creation: a destination missing at the open ends with the mode `open` gives a
new file (`FS.created`: the permission bits asked for less the umask, with the
setuid, setgid and sticky bits asked for), and a destination that existed
keeps the mode it had. -/
theorem C10_CreateFile_mode (filename : String) (r : Reader) (info : FileInfo)
    (opt : WriteMode) (w w1 w2 : World) (f : Nat)
    (hdir : path_helpers.MkdirAllIfNotExists (filepath.Dir filename) w = (w1, none))
    (hopen : (if WriteMode.IsSetPerm opt then
                os.OpenFile filename (os.O_WRONLY ||| os.O_CREATE ||| os.O_TRUNC) info.mode w1
              else os.Create filename w1) = (w2, .ok f)) :
    (WriteMode.IsSetPerm opt = false →
      ∀ m, CreateFile filename r { info with mode := m } opt w
        = CreateFile filename r info opt w) ∧
    w2.log = w1.log ++
      [.openWrite filename (if WriteMode.IsSetPerm opt then info.mode else 0o666)] ∧
    (CreateFile filename r info opt w).1.fs.modeOf filename =
      some (match w1.fs.modeOf filename with
            | some m => m
            | none => w1.fs.created (if WriteMode.IsSetPerm opt then info.mode else 0o666)) := by
  refine ⟨?_, ?_, ?_⟩
  · intro hp m
    simp only [CreateFile, hp]
    rfl
  · cases hp : WriteMode.IsSetPerm opt
    · rw [hp] at hopen
      simp only [Bool.false_eq_true, if_false] at hopen ⊢
      have := OpenFile_log filename (os.O_RDWR ||| os.O_CREATE ||| os.O_TRUNC) 0o666 w1
      rw [os.Create] at hopen
      rw [hopen] at this; exact this
    · rw [hp] at hopen
      simp only [if_true] at hopen ⊢
      have := OpenFile_log filename (os.O_WRONLY ||| os.O_CREATE ||| os.O_TRUNC) info.mode w1
      rw [hopen] at this; exact this
  · rw [CreateFile_after_open filename r info opt w w1 w2 f hdir hopen filename]
    cases hp : WriteMode.IsSetPerm opt
    · rw [hp] at hopen
      simp only [Bool.false_eq_true, if_false] at hopen ⊢
      exact modeOf_OpenFile _ _ _ _ _ _ hopen
    · rw [hp] at hopen
      simp only [if_true] at hopen ⊢
      exact modeOf_OpenFile _ _ _ _ _ _ hopen

/-- C10 at two concrete inputs: with `WO_SetPerm` and the umask `022`, a new
file `out/new` asked for with mode `0666` ends with mode `0644`, and one asked
for with mode `0755` and the setuid bit ends with mode `0755` and the setuid
bit. -/
theorem C10_CreateFile_mode_witness :
    (CreateFile "out/new" (bytes.NewBuffer [1, 2]) demoInfoPlain WO_SetPerm
      demoWorld).1.fs.modeOf "out/new" = some 0o644 ∧
    (CreateFile "out/new" (bytes.NewBuffer [1, 2]) demoInfoSetuid WO_SetPerm
      demoWorld).1.fs.modeOf "out/new" = some (ModeSetuid ||| 0o755) :=
  ⟨((C10_CreateFile_mode "out/new" (bytes.NewBuffer [1, 2]) demoInfoPlain WO_SetPerm
      demoWorld _ _ 10 rfl rfl).2.2).trans (by decide),
   ((C10_CreateFile_mode "out/new" (bytes.NewBuffer [1, 2]) demoInfoSetuid WO_SetPerm
      demoWorld _ _ 10 rfl rfl).2.2).trans (by decide)⟩

/-- C10 as stated fails: with `WO_SetPerm` and a descriptor of mode `0644`,
`CreateFile` on the existing file `src/d/g` of mode `0600` succeeds and the
file still has mode `0600`; and a new file asked for with mode `0666` under the
umask `022` gets mode `0644`. -/
theorem C10_CreateFile_mode_counterexample :
    WriteMode.IsSetPerm WO_SetPerm = true ∧
    demoFS.modeOf "src/d/g" = some 0o600 ∧
    (CreateFile "src/d/g" (bytes.NewBuffer [1, 2])
      { name := "x", mode := 0o644, modTime := 42, ino := 0 } WO_SetPerm demoWorld).2 = none ∧
    (CreateFile "src/d/g" (bytes.NewBuffer [1, 2])
      { name := "x", mode := 0o644, modTime := 42, ino := 0 } WO_SetPerm demoWorld).1.fs.modeOf
      "src/d/g" = some 0o600 ∧
    (CreateFile "src/d/g" (bytes.NewBuffer [1, 2])
      { name := "x", mode := 0o644, modTime := 42, ino := 0 } WO_SetPerm demoWorld).1.fs.dataOf
      "src/d/g" = some [1, 2] ∧
    (CreateFile "out/new" (bytes.NewBuffer [1, 2])
      { name := "x", mode := 0o666, modTime := 42, ino := 0 } WO_SetPerm demoWorld).2 = none ∧
    (CreateFile "out/new" (bytes.NewBuffer [1, 2])
      { name := "x", mode := 0o666, modTime := 42, ino := 0 } WO_SetPerm demoWorld).1.fs.modeOf
      "out/new" = some 0o644 := by
  decide

end FileUtils
